import Mathlib

/-!
Verification of the `saga_demo` order-saga orchestrator.

Shallow embedding of the repository's data model and operations:
the in-memory store (`Store`), the three domain services (discounts,
inventory, billing), the step abstraction, and `SagaOrchestrator.execute`
with forward execution and reverse compensation.  Python `Decimal` money
values are embedded as rationals, with `quantize2` modelling
`Decimal.quantize(Decimal("0.01"))` under the default ROUND_HALF_EVEN
rounding mode.  Python exceptions are embedded as explicit error values:
errors raised to the caller become `Except.error`, errors caught inside
the saga become `Option SagaErr` results threaded through the run.
-/

namespace SagaDemo

/-- Floor of a rational, computed as floor division of numerator by denominator. -/
def ratFloor (q : ℚ) : ℤ := q.num.fdiv q.den

/-- Rounding to the nearest integer with ties to even: the rounding mode of
Python `Decimal.quantize` (ROUND_HALF_EVEN, the context default used by the code). -/
def roundHalfEven (q : ℚ) : ℤ :=
  if q - ratFloor q < 1/2 then ratFloor q
  else if 1/2 < q - ratFloor q then ratFloor q + 1
  else if 2 ∣ ratFloor q then ratFloor q else ratFloor q + 1

/-- Python `value.quantize(Decimal("0.01"))`: round to two fractional decimal digits. -/
def quantize2 (q : ℚ) : ℚ := (roundHalfEven (q * 100) : ℚ) / 100

/-- The value is representable with exactly two fractional decimal digits. -/
def Quantized2 (q : ℚ) : Prop := (q * 100).den = 1

instance (q : ℚ) : Decidable (Quantized2 q) :=
  inferInstanceAs (Decidable ((q * 100).den = 1))

/-- `saga_demo.models.User`. -/
structure User where
  id : ℤ
  balance : ℚ
  deriving DecidableEq

/-- `saga_demo.models.InventoryItem`. -/
structure InventoryItem where
  sku : String
  price : ℚ
  on_hand : ℤ
  deriving DecidableEq

/-- `saga_demo.models.PromoCode`. -/
structure PromoCode where
  code : String
  remaining_uses : ℤ
  discount_amount : ℚ
  deriving DecidableEq

/-- `saga_demo.models.OrderRequest`. -/
structure OrderRequest where
  order_id : ℤ
  user_id : ℤ
  sku : String
  qty : ℤ
  promo_code : Option String
  deriving DecidableEq

/-- `saga_demo.saga.OrderAmounts`. -/
structure OrderAmounts where
  base_amount : ℚ
  discount_amount : ℚ
  final_amount : ℚ
  deriving DecidableEq

/-- Errors raised inside saga steps and caught by the orchestrator
(`ValueError`s of the services plus the injected `SagaError`). -/
inductive SagaErr where
  | promoNotFound (code : String)
  | promoExhausted (code : String)
  | itemNotFound (sku : String)
  | insufficientInventory (sku : String) (onHand need : ℤ)
  | userNotFound (user_id : ℤ)
  | insufficientBalance (user_id : ℤ) (balance need : ℚ)
  | artificialFailure (step : String)
  deriving DecidableEq

/-- Errors raised by `execute` to its caller before any step runs
(pre-saga validation and amount computation). -/
inductive ValidationErr where
  | qtyNotPositive
  | userNotFound (user_id : ℤ)
  | itemNotFound (sku : String)
  deriving DecidableEq

/-- One entry of `Store.logs`.  The Python log is a list of formatted strings;
each constructor stands for one `store.log(...)` call site with the data it
interpolates. -/
inductive LogEntry where
  | sagaStart (order_id user_id : ℤ) (sku : String) (qty : ℤ) (promo : Option String)
  | amountsLine (order_id : ℤ) (base discount final : ℚ)
  | stepStart (order_id : ℤ) (step : String)
  | stepOk (order_id : ℤ) (step : String)
  | compStart (order_id : ℤ) (step : String)
  | compOk (order_id : ℤ) (step : String)
  | promoReserved (order_id : ℤ) (code : String) (remaining : ℤ)
  | promoReleased (order_id : ℤ) (code : String) (remaining : ℤ)
  | inventoryReserved (order_id : ℤ) (sku : String) (qty on_hand : ℤ)
  | inventoryReleased (order_id : ℤ) (sku : String) (qty on_hand : ℤ)
  | charged (order_id user_id : ℤ) (amount balance : ℚ)
  | refunded (order_id user_id : ℤ) (amount balance : ℚ)
  | orderFinalized (order_id : ℤ)
  | finalizeNoCompensation (order_id : ℤ)
  | sagaOk (order_id : ℤ)
  | sagaFailed (order_id : ℤ) (err : SagaErr)
  | compensationFailed (order_id : ℤ) (step : String)
  | sagaEndFailed (order_id : ℤ)
  deriving DecidableEq

/-- `saga_demo.store.Store`: the three keyed maps plus the append-only log. -/
structure Store where
  users : ℤ → Option User
  items : String → Option InventoryItem
  promos : String → Option PromoCode
  logs : List LogEntry

/-- `Store.log`: append one entry. -/
def Store.log (s : Store) (e : LogEntry) : Store := { s with logs := s.logs ++ [e] }

/-- Point update of a keyed map (mutating one dict value in place). -/
def upd {α β : Type} [DecidableEq α] (m : α → Option β) (k : α) (v : β) :
    α → Option β :=
  fun x => if x = k then some v else m x

/-- `DiscountsService.calculate_discount`.  Python's `if not promo_code:` is
falsy both for `None` and for the empty string. -/
def calculate_discount (s : Store) (promo_code : Option String) (base_amount : ℚ) : ℚ :=
  match promo_code with
  | none => 0
  | some code =>
    if code = "" then 0
    else
      match s.promos code with
      | none => 0
      | some promo =>
        if promo.remaining_uses ≤ 0 then 0
        else min promo.discount_amount base_amount

/-- `DiscountsService.reserve_promo_use`: on error the store is unchanged. -/
def reserve_promo_use (s : Store) (order_id : ℤ) (promo_code : String) :
    Store × Option SagaErr :=
  match s.promos promo_code with
  | none => (s, some (.promoNotFound promo_code))
  | some promo =>
    if promo.remaining_uses ≤ 0 then (s, some (.promoExhausted promo_code))
    else
      (({ s with promos := (upd s.promos promo_code
            { promo with remaining_uses := promo.remaining_uses - 1 }) }).log
          (.promoReserved order_id promo_code (promo.remaining_uses - 1)), none)

/-- `DiscountsService.release_promo_use`: no-op when the code is unknown. -/
def release_promo_use (s : Store) (order_id : ℤ) (promo_code : String) : Store :=
  match s.promos promo_code with
  | none => s
  | some promo =>
    ({ s with promos := (upd s.promos promo_code
        { promo with remaining_uses := promo.remaining_uses + 1 }) }).log
      (.promoReleased order_id promo_code (promo.remaining_uses + 1))

/-- `InventoryService.reserve_inventory`. -/
def reserve_inventory (s : Store) (order_id : ℤ) (sku : String) (qty : ℤ) :
    Store × Option SagaErr :=
  match s.items sku with
  | none => (s, some (.itemNotFound sku))
  | some item =>
    if item.on_hand < qty then (s, some (.insufficientInventory sku item.on_hand qty))
    else
      (({ s with items := (upd s.items sku
            { item with on_hand := item.on_hand - qty }) }).log
          (.inventoryReserved order_id sku qty (item.on_hand - qty)), none)

/-- `InventoryService.release_inventory`: no-op when the sku is unknown. -/
def release_inventory (s : Store) (order_id : ℤ) (sku : String) (qty : ℤ) : Store :=
  match s.items sku with
  | none => s
  | some item =>
    ({ s with items := (upd s.items sku
        { item with on_hand := item.on_hand + qty }) }).log
      (.inventoryReleased order_id sku qty (item.on_hand + qty))

/-- `BillingService.charge_user_balance`. -/
def charge_user_balance (s : Store) (order_id user_id : ℤ) (amount : ℚ) :
    Store × Option SagaErr :=
  match s.users user_id with
  | none => (s, some (.userNotFound user_id))
  | some user =>
    if user.balance < amount then
      (s, some (.insufficientBalance user_id user.balance amount))
    else
      (({ s with users := (upd s.users user_id
            { user with balance := user.balance - amount }) }).log
          (.charged order_id user_id amount (user.balance - amount)), none)

/-- `BillingService.refund_user_balance`: no-op when the user is unknown. -/
def refund_user_balance (s : Store) (order_id user_id : ℤ) (amount : ℚ) : Store :=
  match s.users user_id with
  | none => s
  | some user =>
    ({ s with users := (upd s.users user_id
        { user with balance := user.balance + amount }) }).log
      (.refunded order_id user_id amount (user.balance + amount))

/-- The four `Step` subclasses, each bound to its constructor parameters. -/
inductive Step where
  | reservePromoUse (promo_code : String)
  | reserveInventory (sku : String) (qty : ℤ)
  | chargeUserBalance (user_id : ℤ) (amount : ℚ)
  | finalizeOrder
  deriving DecidableEq

/-- `Step.name`. -/
def Step.name : Step → String
  | .reservePromoUse _ => "ReservePromoUse"
  | .reserveInventory _ _ => "ReserveInventory"
  | .chargeUserBalance _ _ => "ChargeUserBalance"
  | .finalizeOrder => "FinalizeOrder"

/-- `Step.execute`: dispatch to the bound service call.  `FinalizeOrder`
only logs. -/
def stepExecute (s : Store) (order_id : ℤ) : Step → Store × Option SagaErr
  | .reservePromoUse c => reserve_promo_use s order_id c
  | .reserveInventory sk q => reserve_inventory s order_id sk q
  | .chargeUserBalance u a => charge_user_balance s order_id u a
  | .finalizeOrder => (s.log (.orderFinalized order_id), none)

/-- `Step.compensate`: dispatch to the inverse service call.  Every
compensating call of this system is total (the release/refund services never
raise), so the result is just the new store. -/
def stepCompensate (s : Store) (order_id : ℤ) : Step → Store
  | .reservePromoUse c => release_promo_use s order_id c
  | .reserveInventory sk q => release_inventory s order_id sk q
  | .chargeUserBalance u a => refund_user_balance s order_id u a
  | .finalizeOrder => s.log (.finalizeNoCompensation order_id)

/-- `Step.run`: bracketing `STEP`/`STEP OK` log lines around `execute`;
a failure inside `execute` leaves the start line but not the OK line. -/
def runStep (s : Store) (order_id : ℤ) (st : Step) : Store × Option SagaErr :=
  match stepExecute (s.log (.stepStart order_id st.name)) order_id st with
  | (s2, some e) => (s2, some e)
  | (s2, none) => (s2.log (.stepOk order_id st.name), none)

/-- `Step.run_compensation`: bracketing `COMPENSATE`/`COMPENSATE OK` lines. -/
def runCompensation (s : Store) (order_id : ℤ) (st : Step) : Store :=
  (stepCompensate (s.log (.compStart order_id st.name)) order_id st).log
    (.compOk order_id st.name)

/-- The forward loop of `SagaOrchestrator.execute`: consult the fail-at
directive, run the step, and accumulate the completed steps in execution
order; stop at the first failure. -/
def runForward (order_id : ℤ) (failAt : Option String) :
    Store → List Step → Store × List Step × Option SagaErr
  | s, [] => (s, [], none)
  | s, st :: rest =>
    if failAt = some st.name then
      (s, [], some (.artificialFailure st.name))
    else
      match runStep s order_id st with
      | (s1, some e) => (s1, [], some e)
      | (s1, none) =>
        let r := runForward order_id failAt s1 rest
        (r.1, st :: r.2.1, r.2.2)

/-- The compensation loop of `SagaOrchestrator.execute`, applied to the
completed steps in reverse; each compensating call is total here, so the
per-step `try/except` of the source never fires. -/
def compensateAll (order_id : ℤ) : Store → List Step → Store
  | s, [] => s
  | s, st :: rest => compensateAll order_id (runCompensation s order_id st) rest

/-- `SagaOrchestrator._calculate_amounts`: raises (`Except.error`) when the
sku is unknown; otherwise quantizes base, discount and final to two decimals. -/
def calculate_amounts (s : Store) (req : OrderRequest) :
    Except ValidationErr OrderAmounts :=
  match s.items req.sku with
  | none => .error (.itemNotFound req.sku)
  | some item =>
    let base := quantize2 (item.price * (req.qty : ℚ))
    let discount := quantize2 (calculate_discount s req.promo_code base)
    .ok { base_amount := base, discount_amount := discount,
          final_amount := quantize2 (base - discount) }

/-- The step list built by `execute`.  Python's `if req.promo_code:` skips
the promo step both for `None` and for the empty string. -/
def buildSteps (req : OrderRequest) (final_amount : ℚ) : List Step :=
  (match req.promo_code with
   | some c => if c = "" then [] else [Step.reservePromoUse c]
   | none => []) ++
  [Step.reserveInventory req.sku req.qty,
   Step.chargeUserBalance req.user_id final_amount,
   Step.finalizeOrder]

/-- `SagaOrchestrator.execute`.  The boolean result of the source becomes
`Except.ok`; pre-saga validation errors, which the source raises to the
caller, become `Except.error`. -/
def startLine (req : OrderRequest) : LogEntry :=
  .sagaStart req.order_id req.user_id req.sku req.qty req.promo_code

def execute (s : Store) (req : OrderRequest) (fail_at_step : Option String) :
    Store × Except ValidationErr Bool :=
  if req.qty ≤ 0 then (s.log (startLine req), .error .qtyNotPositive)
  else if ((s.log (startLine req)).users req.user_id).isNone then
    (s.log (startLine req), .error (.userNotFound req.user_id))
  else
    match calculate_amounts (s.log (startLine req)) req with
    | .error e => (s.log (startLine req), .error e)
    | .ok am =>
      match runForward req.order_id fail_at_step
          ((s.log (startLine req)).log (.amountsLine req.order_id am.base_amount
            am.discount_amount am.final_amount))
          (buildSteps req am.final_amount) with
      | (s2, _, none) => (s2.log (.sagaOk req.order_id), .ok true)
      | (s2, completed, some e) =>
        ((compensateAll req.order_id (s2.log (.sagaFailed req.order_id e))
            completed.reverse).log (.sagaEndFailed req.order_id), .ok false)


/-! ### Basic lemmas: quantization -/

deriving instance DecidableEq for Except

theorem ratFloor_intCast (z : ℤ) : ratFloor (z : ℚ) = z := by
  simp [ratFloor, Rat.intCast_num, Rat.intCast_den, Int.fdiv_one]

theorem roundHalfEven_intCast (z : ℤ) : roundHalfEven (z : ℚ) = z := by
  unfold roundHalfEven
  rw [ratFloor_intCast]
  norm_num

theorem quantize2_of_quantized {q : ℚ} (h : Quantized2 q) : quantize2 q = q := by
  unfold quantize2
  have h2 : ((q * 100).num : ℚ) = q * 100 := (Rat.den_eq_one_iff _).mp h
  rw [← h2, roundHalfEven_intCast, h2]
  field_simp

theorem quantized2_quantize2 (q : ℚ) : Quantized2 (quantize2 q) := by
  unfold Quantized2 quantize2
  rw [div_mul_cancel₀ _ (by norm_num : (100 : ℚ) ≠ 0)]
  exact Rat.intCast_den _

theorem quantized2_intCast (z : ℤ) : Quantized2 (z : ℚ) := by
  unfold Quantized2
  rw [show ((z : ℚ) * 100) = ((z * 100 : ℤ) : ℚ) by push_cast; ring]
  exact Rat.intCast_den _

theorem Quantized2.sub {a b : ℚ} (ha : Quantized2 a) (hb : Quantized2 b) :
    Quantized2 (a - b) := by
  have ha2 : ((a * 100).num : ℚ) = a * 100 := (Rat.den_eq_one_iff _).mp ha
  have hb2 : ((b * 100).num : ℚ) = b * 100 := (Rat.den_eq_one_iff _).mp hb
  unfold Quantized2
  rw [sub_mul, ← ha2, ← hb2, ← Int.cast_sub]
  exact Rat.intCast_den _

theorem Quantized2.mul_intCast {a : ℚ} (ha : Quantized2 a) (z : ℤ) :
    Quantized2 (a * (z : ℚ)) := by
  have ha2 : ((a * 100).num : ℚ) = a * 100 := (Rat.den_eq_one_iff _).mp ha
  unfold Quantized2
  rw [show a * (z : ℚ) * 100 = a * 100 * (z : ℚ) by ring, ← ha2, ← Int.cast_mul]
  exact Rat.intCast_den _

/-! ### Basic lemmas: keyed maps -/

theorem upd_same {α β : Type} [DecidableEq α] (m : α → Option β) (k : α) (v : β) :
    upd m k v k = some v := by
  simp [upd]

theorem upd_other {α β : Type} [DecidableEq α] (m : α → Option β) {k x : α} (v : β)
    (h : x ≠ k) : upd m k v x = m x := by
  simp [upd, h]

theorem upd_upd {α β : Type} [DecidableEq α] (m : α → Option β) (k : α) (v w : β) :
    upd (upd m k v) k w = upd m k w := by
  funext x
  unfold upd
  split <;> rfl

theorem upd_self {α β : Type} [DecidableEq α] {m : α → Option β} {k : α} {v : β}
    (h : m k = some v) : upd m k v = m := by
  funext x
  unfold upd
  split
  · next hx => rw [hx, h]
  · rfl


/-! ### Step-level lemmas -/

theorem log_users (s : Store) (e : LogEntry) : (s.log e).users = s.users := rfl

theorem log_items (s : Store) (e : LogEntry) : (s.log e).items = s.items := rfl

theorem log_promos (s : Store) (e : LogEntry) : (s.log e).promos = s.promos := rfl

theorem reserve_promo_ok {s s' : Store} {oid : ℤ} {c : String}
    (h : reserve_promo_use s oid c = (s', none)) :
    ∃ p, s.promos c = some p ∧ ¬ p.remaining_uses ≤ 0 ∧
      s'.users = s.users ∧ s'.items = s.items ∧
      s'.promos = upd s.promos c { p with remaining_uses := p.remaining_uses - 1 } := by
  unfold reserve_promo_use at h
  split at h
  · injection h with _ h2; exact Option.noConfusion h2
  next p hp =>
    split at h
    · injection h with _ h2; exact Option.noConfusion h2
    next hlt =>
      injection h with h1 _
      exact ⟨p, hp, hlt, by rw [← h1]; rfl, by rw [← h1]; rfl, by rw [← h1]; rfl⟩

theorem reserve_inventory_ok {s s' : Store} {oid : ℤ} {sk : String} {q : ℤ}
    (h : reserve_inventory s oid sk q = (s', none)) :
    ∃ it, s.items sk = some it ∧ ¬ it.on_hand < q ∧
      s'.users = s.users ∧ s'.promos = s.promos ∧
      s'.items = upd s.items sk { it with on_hand := it.on_hand - q } := by
  unfold reserve_inventory at h
  split at h
  · injection h with _ h2; exact Option.noConfusion h2
  next it hit =>
    split at h
    · injection h with _ h2; exact Option.noConfusion h2
    next hlt =>
      injection h with h1 _
      exact ⟨it, hit, hlt, by rw [← h1]; rfl, by rw [← h1]; rfl, by rw [← h1]; rfl⟩

theorem charge_ok {s s' : Store} {oid u : ℤ} {a : ℚ}
    (h : charge_user_balance s oid u a = (s', none)) :
    ∃ usr, s.users u = some usr ∧ ¬ usr.balance < a ∧
      s'.items = s.items ∧ s'.promos = s.promos ∧
      s'.users = upd s.users u { usr with balance := usr.balance - a } := by
  unfold charge_user_balance at h
  split at h
  · injection h with _ h2; exact Option.noConfusion h2
  next usr husr =>
    split at h
    · injection h with _ h2; exact Option.noConfusion h2
    next hlt =>
      injection h with h1 _
      exact ⟨usr, husr, hlt, by rw [← h1]; rfl, by rw [← h1]; rfl, by rw [← h1]; rfl⟩

theorem stepExecute_err {s s' : Store} {oid : ℤ} {st : Step} {e : SagaErr}
    (h : stepExecute s oid st = (s', some e)) : s' = s := by
  cases st with
  | reservePromoUse c =>
    simp only [stepExecute] at h
    unfold reserve_promo_use at h
    split at h
    · injection h with h1 _; exact h1.symm
    · split at h
      · injection h with h1 _; exact h1.symm
      · injection h with _ h2; exact Option.noConfusion h2
  | reserveInventory sk q =>
    simp only [stepExecute] at h
    unfold reserve_inventory at h
    split at h
    · injection h with h1 _; exact h1.symm
    · split at h
      · injection h with h1 _; exact h1.symm
      · injection h with _ h2; exact Option.noConfusion h2
  | chargeUserBalance u a =>
    simp only [stepExecute] at h
    unfold charge_user_balance at h
    split at h
    · injection h with h1 _; exact h1.symm
    · split at h
      · injection h with h1 _; exact h1.symm
      · injection h with _ h2; exact Option.noConfusion h2
  | finalizeOrder =>
    simp only [stepExecute] at h
    injection h with _ h2; exact Option.noConfusion h2

theorem release_promo_fields (t : Store) (oid : ℤ) (c : String) :
    (release_promo_use t oid c).users = t.users ∧
    (release_promo_use t oid c).items = t.items ∧
    (release_promo_use t oid c).promos =
      (match t.promos c with
       | none => t.promos
       | some p => upd t.promos c { p with remaining_uses := p.remaining_uses + 1 }) := by
  unfold release_promo_use
  cases ht : t.promos c <;> exact ⟨rfl, rfl, rfl⟩

theorem release_inventory_fields (t : Store) (oid : ℤ) (sk : String) (q : ℤ) :
    (release_inventory t oid sk q).users = t.users ∧
    (release_inventory t oid sk q).promos = t.promos ∧
    (release_inventory t oid sk q).items =
      (match t.items sk with
       | none => t.items
       | some it => upd t.items sk { it with on_hand := it.on_hand + q }) := by
  unfold release_inventory
  cases ht : t.items sk <;> exact ⟨rfl, rfl, rfl⟩

theorem refund_fields (t : Store) (oid u : ℤ) (a : ℚ) :
    (refund_user_balance t oid u a).items = t.items ∧
    (refund_user_balance t oid u a).promos = t.promos ∧
    (refund_user_balance t oid u a).users =
      (match t.users u with
       | none => t.users
       | some usr => upd t.users u { usr with balance := usr.balance + a }) := by
  unfold refund_user_balance
  cases ht : t.users u <;> exact ⟨rfl, rfl, rfl⟩

/-- Compensation exactly undoes a successful execution of the same step, even
when run later from any store whose entity state agrees with the
post-execution one. -/
theorem stepCompensate_undo {s s' t : Store} {oid : ℤ} {st : Step}
    (hexec : stepExecute s oid st = (s', none))
    (hu : t.users = s'.users) (hi : t.items = s'.items) (hp : t.promos = s'.promos) :
    (stepCompensate t oid st).users = s.users ∧
    (stepCompensate t oid st).items = s.items ∧
    (stepCompensate t oid st).promos = s.promos := by
  cases st with
  | reservePromoUse c =>
    simp only [stepExecute] at hexec
    obtain ⟨p, hps, _, hu2, hi2, hp2⟩ := reserve_promo_ok hexec
    obtain ⟨f1, f2, f3⟩ := release_promo_fields t oid c
    have hpe : ({ p with remaining_uses := p.remaining_uses - 1 + 1 } : PromoCode) = p := by
      rw [sub_add_cancel]
    refine ⟨f1.trans (hu.trans hu2), f2.trans (hi.trans hi2), f3.trans ?_⟩
    rw [hp, hp2, upd_same]
    show upd (upd s.promos c { p with remaining_uses := p.remaining_uses - 1 }) c
        { p with remaining_uses := p.remaining_uses - 1 + 1 } = s.promos
    rw [upd_upd, hpe, upd_self hps]
  | reserveInventory sk q =>
    simp only [stepExecute] at hexec
    obtain ⟨it, hits, _, hu2, hp2, hi2⟩ := reserve_inventory_ok hexec
    obtain ⟨f1, f2, f3⟩ := release_inventory_fields t oid sk q
    have hie : ({ it with on_hand := it.on_hand - q + q } : InventoryItem) = it := by
      rw [sub_add_cancel]
    refine ⟨f1.trans (hu.trans hu2), f3.trans ?_, f2.trans (hp.trans hp2)⟩
    rw [hi, hi2, upd_same]
    show upd (upd s.items sk { it with on_hand := it.on_hand - q }) sk
        { it with on_hand := it.on_hand - q + q } = s.items
    rw [upd_upd, hie, upd_self hits]
  | chargeUserBalance u a =>
    simp only [stepExecute] at hexec
    obtain ⟨usr, husrs, _, hi2, hp2, hu2⟩ := charge_ok hexec
    obtain ⟨f1, f2, f3⟩ := refund_fields t oid u a
    have hue : ({ usr with balance := usr.balance - a + a } : User) = usr := by
      rw [sub_add_cancel]
    refine ⟨f3.trans ?_, f1.trans (hi.trans hi2), f2.trans (hp.trans hp2)⟩
    rw [hu, hu2, upd_same]
    show upd (upd s.users u { usr with balance := usr.balance - a }) u
        { usr with balance := usr.balance - a + a } = s.users
    rw [upd_upd, hue, upd_self husrs]
  | finalizeOrder =>
    simp only [stepExecute] at hexec
    injection hexec with h1 _
    exact ⟨hu.trans (h1 ▸ rfl), hi.trans (h1 ▸ rfl), hp.trans (h1 ▸ rfl)⟩


/-! ### Run-level lemmas -/

theorem runStep_err {s s1 : Store} {oid : ℤ} {st : Step} {e : SagaErr}
    (h : runStep s oid st = (s1, some e)) :
    s1 = s.log (.stepStart oid st.name) := by
  unfold runStep at h
  split at h
  next s2 e2 heq =>
    injection h with h1 _
    rw [← h1]
    exact stepExecute_err heq
  next s2 heq =>
    injection h with _ h2
    exact Option.noConfusion h2

theorem runStep_ok {s s1 : Store} {oid : ℤ} {st : Step}
    (h : runStep s oid st = (s1, none)) :
    ∃ sm, stepExecute (s.log (.stepStart oid st.name)) oid st = (sm, none) ∧
      s1 = sm.log (.stepOk oid st.name) := by
  unfold runStep at h
  split at h
  next s2 e2 heq =>
    injection h with _ h2
    exact Option.noConfusion h2
  next s2 heq =>
    injection h with h1 _
    exact ⟨s2, heq, h1.symm⟩

theorem compensateAll_append (oid : ℤ) (s : Store) (l1 l2 : List Step) :
    compensateAll oid s (l1 ++ l2) = compensateAll oid (compensateAll oid s l1) l2 := by
  induction l1 generalizing s with
  | nil => rfl
  | cons st rest ih =>
    simp only [List.cons_append, compensateAll]
    exact ih _

/-- The central rollback property: after any (possibly partial) forward run,
compensating the completed steps in reverse order restores the entity state
the run started from, no matter what extra log entries were appended in
between. -/
theorem runForward_undo {oid : ℤ} {failAt : Option String} :
    ∀ (ss : List Step) (s s1 : Store) (comps : List Step) (res : Option SagaErr),
      runForward oid failAt s ss = (s1, comps, res) →
      ∀ t : Store, t.users = s1.users → t.items = s1.items → t.promos = s1.promos →
        (compensateAll oid t comps.reverse).users = s.users ∧
        (compensateAll oid t comps.reverse).items = s.items ∧
        (compensateAll oid t comps.reverse).promos = s.promos := by
  intro ss
  induction ss with
  | nil =>
    intro s s1 comps res h t hu hi hp
    injection h with h1 h2
    injection h2 with h2a h2b
    subst h1 h2a
    exact ⟨hu, hi, hp⟩
  | cons st rest ih =>
    intro s s1 comps res h t hu hi hp
    unfold runForward at h
    split at h
    · injection h with h1 h2
      injection h2 with h2a h2b
      subst h1 h2a
      exact ⟨hu, hi, hp⟩
    · split at h
      next sa e heq =>
        injection h with h1 h2
        injection h2 with h2a h2b
        subst h1 h2a
        have hsa := runStep_err heq
        exact ⟨hu.trans (by rw [hsa]; rfl), hi.trans (by rw [hsa]; rfl),
          hp.trans (by rw [hsa]; rfl)⟩
      next sa heq =>
        obtain ⟨sm, hsm, hsa⟩ := runStep_ok heq
        rcases hr : runForward oid failAt sa rest with ⟨sb, comps2, res2⟩
        rw [hr] at h
        injection h with h1 h2
        injection h2 with h2a h2b
        subst h1 h2a
        obtain ⟨gu, gi, gp⟩ := ih sa sb comps2 res2 hr t hu hi hp
        rw [List.reverse_cons, compensateAll_append]
        have hw := stepCompensate_undo
          (t := (compensateAll oid t comps2.reverse).log (.compStart oid st.name)) hsm
          (by rw [log_users, gu, hsa]; rfl)
          (by rw [log_items, gi, hsa]; rfl)
          (by rw [log_promos, gp, hsa]; rfl)
        exact ⟨hw.1, hw.2.1, hw.2.2⟩

/-- The completed-step list is the prefix of the step list before the failure
point; it is everything on success and a proper prefix on failure. -/
theorem runForward_prefix {oid : ℤ} {failAt : Option String} :
    ∀ (ss : List Step) (s s1 : Store) (comps : List Step) (res : Option SagaErr),
      runForward oid failAt s ss = (s1, comps, res) →
      comps = ss.take comps.length ∧
      (res = none → comps = ss) ∧
      (res ≠ none → comps.length < ss.length) := by
  intro ss
  induction ss with
  | nil =>
    intro s s1 comps res h
    injection h with h1 h2
    injection h2 with h2a h2b
    subst h2a h2b
    exact ⟨rfl, fun _ => rfl, fun hne => absurd rfl hne⟩
  | cons st rest ih =>
    intro s s1 comps res h
    unfold runForward at h
    split at h
    · injection h with h1 h2
      injection h2 with h2a h2b
      subst h2a h2b
      exact ⟨rfl, fun hc => Option.noConfusion hc, fun _ => Nat.succ_pos _⟩
    · split at h
      next sa e heq =>
        injection h with h1 h2
        injection h2 with h2a h2b
        subst h2a h2b
        exact ⟨rfl, fun hc => Option.noConfusion hc, fun _ => Nat.succ_pos _⟩
      next sa heq =>
        rcases hr : runForward oid failAt sa rest with ⟨sb, comps2, res2⟩
        rw [hr] at h
        injection h with h1 h2
        injection h2 with h2a h2b
        subst h2a h2b
        obtain ⟨g1, g2, g3⟩ := ih sa sb comps2 res2 hr
        refine ⟨?_, ?_, ?_⟩
        · simp only [List.length_cons, List.take_succ_cons]
          rw [← g1]
        · intro hres
          rw [g2 hres]
        · intro hres
          simpa using g3 hres


/-! ### Log-trace lemmas -/

/-- The names carried by the `COMPENSATE <name>` entries of a log fragment:
one entry per compensation invocation. -/
def compStarts (l : List LogEntry) : List String :=
  l.filterMap fun e =>
    match e with
    | .compStart _ n => some n
    | _ => none

theorem compStarts_append (a b : List LogEntry) :
    compStarts (a ++ b) = compStarts a ++ compStarts b :=
  List.filterMap_append a b _

theorem stepExecute_logs {s s' : Store} {oid : ℤ} {st : Step} {r : Option SagaErr}
    (h : stepExecute s oid st = (s', r)) :
    ∃ t, s'.logs = s.logs ++ t ∧ compStarts t = [] := by
  cases st with
  | reservePromoUse c =>
    simp only [stepExecute] at h
    unfold reserve_promo_use at h
    split at h
    · injection h with h1 _
      exact ⟨[], by rw [← h1, List.append_nil], rfl⟩
    next p hp =>
      split at h
      · injection h with h1 _
        exact ⟨[], by rw [← h1, List.append_nil], rfl⟩
      · injection h with h1 _
        exact ⟨[.promoReserved oid c (p.remaining_uses - 1)], by rw [← h1]; rfl, rfl⟩
  | reserveInventory sk q =>
    simp only [stepExecute] at h
    unfold reserve_inventory at h
    split at h
    · injection h with h1 _
      exact ⟨[], by rw [← h1, List.append_nil], rfl⟩
    next it hit =>
      split at h
      · injection h with h1 _
        exact ⟨[], by rw [← h1, List.append_nil], rfl⟩
      · injection h with h1 _
        exact ⟨[.inventoryReserved oid sk q (it.on_hand - q)], by rw [← h1]; rfl, rfl⟩
  | chargeUserBalance u a =>
    simp only [stepExecute] at h
    unfold charge_user_balance at h
    split at h
    · injection h with h1 _
      exact ⟨[], by rw [← h1, List.append_nil], rfl⟩
    next usr husr =>
      split at h
      · injection h with h1 _
        exact ⟨[], by rw [← h1, List.append_nil], rfl⟩
      · injection h with h1 _
        exact ⟨[.charged oid u a (usr.balance - a)], by rw [← h1]; rfl, rfl⟩
  | finalizeOrder =>
    simp only [stepExecute] at h
    injection h with h1 _
    exact ⟨[.orderFinalized oid], by rw [← h1]; rfl, rfl⟩

theorem stepCompensate_logs (s : Store) (oid : ℤ) (st : Step) :
    ∃ t, (stepCompensate s oid st).logs = s.logs ++ t ∧ compStarts t = [] := by
  cases st with
  | reservePromoUse c =>
    show ∃ t, (release_promo_use s oid c).logs = s.logs ++ t ∧ compStarts t = []
    unfold release_promo_use
    cases s.promos c with
    | none => exact ⟨[], by rw [List.append_nil], rfl⟩
    | some p => exact ⟨[.promoReleased oid c (p.remaining_uses + 1)], rfl, rfl⟩
  | reserveInventory sk q =>
    show ∃ t, (release_inventory s oid sk q).logs = s.logs ++ t ∧ compStarts t = []
    unfold release_inventory
    cases s.items sk with
    | none => exact ⟨[], by rw [List.append_nil], rfl⟩
    | some it => exact ⟨[.inventoryReleased oid sk q (it.on_hand + q)], rfl, rfl⟩
  | chargeUserBalance u a =>
    show ∃ t, (refund_user_balance s oid u a).logs = s.logs ++ t ∧ compStarts t = []
    unfold refund_user_balance
    cases s.users u with
    | none => exact ⟨[], by rw [List.append_nil], rfl⟩
    | some usr => exact ⟨[.refunded oid u a (usr.balance + a)], rfl, rfl⟩
  | finalizeOrder =>
    exact ⟨[.finalizeNoCompensation oid], rfl, rfl⟩

theorem runStep_logs {s s1 : Store} {oid : ℤ} {st : Step} {r : Option SagaErr}
    (h : runStep s oid st = (s1, r)) :
    ∃ t, s1.logs = s.logs ++ t ∧ compStarts t = [] := by
  unfold runStep at h
  split at h
  next s2 e2 heq =>
    obtain ⟨t, ht, hc⟩ := stepExecute_logs heq
    injection h with h1 _
    refine ⟨.stepStart oid st.name :: t, ?_, ?_⟩
    · rw [← h1, ht]
      simp [Store.log]
    · simpa [compStarts] using hc
  next s2 heq =>
    obtain ⟨t, ht, hc⟩ := stepExecute_logs heq
    injection h with h1 _
    refine ⟨.stepStart oid st.name :: (t ++ [.stepOk oid st.name]), ?_, ?_⟩
    · rw [← h1]
      show s2.logs ++ [LogEntry.stepOk oid st.name] = _
      rw [ht]
      simp [Store.log]
    · simp only [compStarts, List.filterMap_cons, List.filterMap_append] at hc ⊢
      simp [hc]

theorem runForward_logs {oid : ℤ} {failAt : Option String} :
    ∀ (ss : List Step) (s s1 : Store) (comps : List Step) (res : Option SagaErr),
      runForward oid failAt s ss = (s1, comps, res) →
      ∃ t, s1.logs = s.logs ++ t ∧ compStarts t = [] := by
  intro ss
  induction ss with
  | nil =>
    intro s s1 comps res h
    injection h with h1 _
    exact ⟨[], by rw [← h1, List.append_nil], rfl⟩
  | cons st rest ih =>
    intro s s1 comps res h
    unfold runForward at h
    split at h
    · injection h with h1 _
      exact ⟨[], by rw [← h1, List.append_nil], rfl⟩
    · split at h
      next sa e heq =>
        injection h with h1 _
        obtain ⟨t, ht, hc⟩ := runStep_logs heq
        exact ⟨t, by rw [← h1, ht], hc⟩
      next sa heq =>
        rcases hr : runForward oid failAt sa rest with ⟨sb, comps2, res2⟩
        rw [hr] at h
        injection h with h1 h2
        obtain ⟨t1, ht1, hc1⟩ := runStep_logs heq
        obtain ⟨t2, ht2, hc2⟩ := ih sa sb comps2 res2 hr
        refine ⟨t1 ++ t2, ?_, ?_⟩
        · rw [← h1, ht2, ht1, List.append_assoc]
        · rw [compStarts_append, hc1, hc2, List.append_nil]

theorem runCompensation_logs (s : Store) (oid : ℤ) (st : Step) :
    ∃ t, (runCompensation s oid st).logs = s.logs ++ t ∧ compStarts t = [st.name] := by
  obtain ⟨t, ht, hc⟩ := stepCompensate_logs (s.log (.compStart oid st.name)) oid st
  refine ⟨.compStart oid st.name :: (t ++ [.compOk oid st.name]), ?_, ?_⟩
  · show (stepCompensate (s.log (.compStart oid st.name)) oid st).logs ++
        [LogEntry.compOk oid st.name] = _
    rw [ht]
    simp [Store.log]
  · simp only [compStarts, List.filterMap_cons, List.filterMap_append] at hc ⊢
    simp [hc]

theorem compensateAll_logs (oid : ℤ) :
    ∀ (l : List Step) (s : Store),
      ∃ t, (compensateAll oid s l).logs = s.logs ++ t ∧
        compStarts t = l.map Step.name := by
  intro l
  induction l with
  | nil =>
    intro s
    exact ⟨[], by rw [List.append_nil]; rfl, rfl⟩
  | cons st rest ih =>
    intro s
    obtain ⟨t1, ht1, hc1⟩ := runCompensation_logs s oid st
    obtain ⟨t2, ht2, hc2⟩ := ih (runCompensation s oid st)
    refine ⟨t1 ++ t2, ?_, ?_⟩
    · show (compensateAll oid (runCompensation s oid st) rest).logs = _
      rw [ht2, ht1, List.append_assoc]
    · rw [compStarts_append, hc1, hc2]
      rfl


/-! ### Destructuring `execute` -/

theorem calculate_amounts_log (s : Store) (e : LogEntry) (req : OrderRequest) :
    calculate_amounts (s.log e) req = calculate_amounts s req := rfl

theorem execute_invalid {s : Store} {req : OrderRequest} {failAt : Option String}
    (h : req.qty ≤ 0 ∨ s.users req.user_id = none ∨ s.items req.sku = none) :
    ∃ e, execute s req failAt = (s.log (startLine req), .error e) := by
  unfold execute
  by_cases h1 : req.qty ≤ 0
  · rw [if_pos h1]
    exact ⟨_, rfl⟩
  · rw [if_neg h1]
    by_cases h2 : ((s.log (startLine req)).users req.user_id).isNone
    · rw [if_pos h2]
      exact ⟨_, rfl⟩
    · rw [if_neg h2]
      have h3 : s.items req.sku = none := by
        rcases h with hq | hu | hi
        · exact absurd hq h1
        · exact absurd (show ((s.log (startLine req)).users req.user_id).isNone = true by
            rw [show (s.log (startLine req)).users = s.users from rfl, hu]; rfl) h2
        · exact hi
      rw [calculate_amounts_log]
      unfold calculate_amounts
      rw [h3]
      exact ⟨_, rfl⟩

theorem execute_run {s : Store} {req : OrderRequest} {failAt : Option String} {b : Bool}
    (h : (execute s req failAt).2 = .ok b) :
    ∃ am s2 comps res,
      ¬ req.qty ≤ 0 ∧
      (s.users req.user_id).isSome = true ∧
      calculate_amounts s req = .ok am ∧
      runForward req.order_id failAt
        ((s.log (startLine req)).log (.amountsLine req.order_id am.base_amount
          am.discount_amount am.final_amount))
        (buildSteps req am.final_amount) = (s2, comps, res) ∧
      ((res = none ∧ b = true ∧
          (execute s req failAt).1 = s2.log (.sagaOk req.order_id)) ∨
       (∃ e, res = some e ∧ b = false ∧
          (execute s req failAt).1 =
            (compensateAll req.order_id (s2.log (.sagaFailed req.order_id e))
              comps.reverse).log (.sagaEndFailed req.order_id))) := by
  unfold execute at h ⊢
  by_cases h1 : req.qty ≤ 0
  · rw [if_pos h1] at h
    simp at h
  rw [if_neg h1] at h ⊢
  by_cases h2 : ((s.log (startLine req)).users req.user_id).isNone
  · rw [if_pos h2] at h
    simp at h
  rw [if_neg h2] at h ⊢
  rcases ham : calculate_amounts s req with e | am
  · rw [calculate_amounts_log, ham] at h
    simp at h
  rw [calculate_amounts_log, ham] at h ⊢
  dsimp only at h ⊢
  rcases hr : runForward req.order_id failAt
      ((s.log (startLine req)).log (.amountsLine req.order_id am.base_amount
        am.discount_amount am.final_amount))
      (buildSteps req am.final_amount) with ⟨s2, comps, res⟩
  rw [hr] at h
  refine ⟨am, s2, comps, res, h1, ?_, rfl, hr, ?_⟩
  · cases hu : s.users req.user_id with
    | none =>
      exact absurd (show ((s.log (startLine req)).users req.user_id).isNone = true by
        rw [show (s.log (startLine req)).users = s.users from rfl, hu]; rfl) h2
    | some u => rfl
  · cases res with
    | none =>
      have hb : b = true := by simpa using h.symm
      exact Or.inl ⟨rfl, hb, rfl⟩
    | some e =>
      have hb : b = false := by simpa using h.symm
      exact Or.inr ⟨e, rfl, hb, rfl⟩

theorem execute_valid {s : Store} {req : OrderRequest} {failAt : Option String}
    (h1 : ¬ req.qty ≤ 0) (h2 : (s.users req.user_id).isSome)
    (h3 : (s.items req.sku).isSome) :
    ∃ b, (execute s req failAt).2 = .ok b := by
  rcases Option.isSome_iff_exists.mp h2 with ⟨u, hu⟩
  rcases Option.isSome_iff_exists.mp h3 with ⟨item, hit⟩
  have ham : ∃ am, calculate_amounts s req = .ok am := by
    unfold calculate_amounts
    rw [hit]
    exact ⟨_, rfl⟩
  rcases ham with ⟨am, ham⟩
  unfold execute
  rw [if_neg h1, show ((s.log (startLine req)).users req.user_id) = some u from hu,
    if_neg (by simp : ¬ (some u).isNone = true), calculate_amounts_log, ham]
  dsimp only
  rcases hr : runForward req.order_id failAt
      ((s.log (startLine req)).log (.amountsLine req.order_id am.base_amount
        am.discount_amount am.final_amount))
      (buildSteps req am.final_amount) with ⟨s2, comps, res⟩
  cases res with
  | none => exact ⟨true, rfl⟩
  | some e => exact ⟨false, rfl⟩


/-! ### Effects of a fully successful forward run -/

theorem runForward_cons_ok {oid : ℤ} {failAt : Option String} {s s1 : Store} {st : Step}
    {rest comps : List Step}
    (h : runForward oid failAt s (st :: rest) = (s1, comps, none)) :
    ∃ sm comps2, stepExecute (s.log (.stepStart oid st.name)) oid st = (sm, none) ∧
      runForward oid failAt (sm.log (.stepOk oid st.name)) rest = (s1, comps2, none) ∧
      comps = st :: comps2 := by
  unfold runForward at h
  split at h
  · injection h with _ h2
    injection h2 with _ h2b
    exact Option.noConfusion h2b
  · split at h
    next sa e heq =>
      injection h with _ h2
      injection h2 with _ h2b
      exact Option.noConfusion h2b
    next sa heq =>
      obtain ⟨sm, hsm, hsa⟩ := runStep_ok heq
      subst hsa
      rcases hr : runForward oid failAt (sm.log (.stepOk oid st.name)) rest
        with ⟨sb, comps2, res2⟩
      rw [hr] at h
      injection h with h1 h2
      injection h2 with h2a h2b
      subst h1 h2b
      exact ⟨sm, comps2, hsm, hr, h2a.symm⟩

theorem runForward_nil_ok {oid : ℤ} {failAt : Option String} {s s1 : Store}
    {comps : List Step} {res : Option SagaErr}
    (h : runForward oid failAt s [] = (s1, comps, res)) : s1 = s := by
  injection h with h1 _
  exact h1.symm

theorem run_promo_first {oid : ℤ} {failAt : Option String} {sx s1 : Store} {c : String}
    {rest comps : List Step}
    (h : runForward oid failAt sx (Step.reservePromoUse c :: rest) = (s1, comps, none)) :
    ∃ (p : PromoCode) (sm : Store) (comps2 : List Step),
      sx.promos c = some p ∧ ¬ p.remaining_uses ≤ 0 ∧
      sm.users = sx.users ∧ sm.items = sx.items ∧
      sm.promos = upd sx.promos c { p with remaining_uses := p.remaining_uses - 1 } ∧
      runForward oid failAt (sm.log (.stepOk oid (Step.reservePromoUse c).name)) rest
        = (s1, comps2, none) := by
  obtain ⟨sm, comps2, hx, hrest, _⟩ := runForward_cons_ok h
  simp only [stepExecute] at hx
  obtain ⟨p, hp, hlt, f1, f2, f3⟩ := reserve_promo_ok hx
  exact ⟨p, sm, comps2, hp, hlt, f1, f2, f3, hrest⟩

/-- Entity effects of running the common tail
`ReserveInventory → ChargeUserBalance → FinalizeOrder` to completion. -/
theorem run_three_effects {oid : ℤ} {failAt : Option String} {sx s1 : Store}
    {sk : String} {q uid : ℤ} {amt : ℚ} {comps : List Step}
    (h : runForward oid failAt sx
      [Step.reserveInventory sk q, Step.chargeUserBalance uid amt, Step.finalizeOrder]
      = (s1, comps, none)) :
    ∃ (it : InventoryItem) (usr : User), sx.items sk = some it ∧ ¬ it.on_hand < q ∧
      sx.users uid = some usr ∧ ¬ usr.balance < amt ∧
      s1.users = upd sx.users uid { usr with balance := usr.balance - amt } ∧
      s1.items = upd sx.items sk { it with on_hand := it.on_hand - q } ∧
      s1.promos = sx.promos := by
  obtain ⟨sm1, c1, hx1, h, _⟩ := runForward_cons_ok h
  obtain ⟨sm2, c2, hx2, h, _⟩ := runForward_cons_ok h
  obtain ⟨sm3, c3, hx3, h, _⟩ := runForward_cons_ok h
  have hs1 : s1 = sm3.log (.stepOk oid Step.finalizeOrder.name) := runForward_nil_ok h
  simp only [stepExecute] at hx1 hx2 hx3
  obtain ⟨it, hit, hlt1, g1, g2, g3⟩ := reserve_inventory_ok hx1
  obtain ⟨usr, husr, hlt2, k1, k2, k3⟩ := charge_ok hx2
  injection hx3 with hm3 _
  have husr2 : sx.users uid = some usr := by
    have : sm1.users = sx.users := g1
    rw [← this]
    exact husr
  refine ⟨it, usr, hit, hlt1, husr2, hlt2, ?_, ?_, ?_⟩
  · rw [hs1, ← hm3]
    show sm2.users = _
    rw [show sm2.users = upd sm1.users uid { usr with balance := usr.balance - amt } from k3]
    rw [show sm1.users = sx.users from g1]
  · rw [hs1, ← hm3]
    show sm2.items = _
    rw [show sm2.items = sm1.items from k1]
    exact g3
  · rw [hs1, ← hm3]
    show sm2.promos = _
    rw [show sm2.promos = sm1.promos from k2]
    exact g2


/-! ### Claim C1 -/

/-- Claim C1 (amended: the promo clause holds for a non-empty supplied promo
code; the source skips the promo step when the supplied code is the empty
string).  For every successful `execute`, the final ledger shows exactly the
computed deductions: balance minus `final_amount`, stock minus `qty`, promo
uses minus one, and no other change to users, items or promos. -/
theorem C1_success_ledger
    {s : Store} {req : OrderRequest} {failAt : Option String} {am : OrderAmounts}
    {u : User} {it : InventoryItem}
    (hok : (execute s req failAt).2 = .ok true)
    (ham : calculate_amounts s req = .ok am)
    (hu : s.users req.user_id = some u)
    (hit : s.items req.sku = some it) :
    ((execute s req failAt).1.users req.user_id =
        some { u with balance := u.balance - am.final_amount }) ∧
    ((execute s req failAt).1.items req.sku =
        some { it with on_hand := it.on_hand - req.qty }) ∧
    (∀ c p, req.promo_code = some c → c ≠ "" → s.promos c = some p →
        (execute s req failAt).1.promos c =
          some { p with remaining_uses := p.remaining_uses - 1 }) ∧
    (∀ k, k ≠ req.user_id → (execute s req failAt).1.users k = s.users k) ∧
    (∀ k, k ≠ req.sku → (execute s req failAt).1.items k = s.items k) ∧
    (∀ k, req.promo_code ≠ some k → (execute s req failAt).1.promos k = s.promos k) ∧
    ((req.promo_code = none ∨ req.promo_code = some "") →
        (execute s req failAt).1.promos = s.promos) := by
  obtain ⟨am2, s2, comps, res, hq, hus, ham2, hrun, hdisj⟩ := execute_run hok
  rw [ham] at ham2
  injection ham2 with ham2
  subst ham2
  rcases hdisj with ⟨hres, _, hfin⟩ | ⟨e, _, hbf, _⟩
  swap
  · exact absurd hbf (by simp)
  subst hres
  rcases hpc : req.promo_code with _ | c
  · unfold buildSteps at hrun
    rw [hpc] at hrun
    dsimp only at hrun
    simp only [List.nil_append] at hrun
    obtain ⟨it2, usr2, hit2, _, husr2, _, e1, e2, e3⟩ := run_three_effects hrun
    have hit2' : s.items req.sku = some it2 := hit2
    have husr2' : s.users req.user_id = some usr2 := husr2
    rw [hit] at hit2'
    rw [hu] at husr2'
    injection hit2' with hit2'
    injection husr2' with husr2'
    subst hit2' husr2'
    have e1' : s2.users = upd s.users req.user_id
        { u with balance := u.balance - am.final_amount } := e1
    have e2' : s2.items = upd s.items req.sku
        { it with on_hand := it.on_hand - req.qty } := e2
    have e3' : s2.promos = s.promos := e3
    refine ⟨?_, ?_, ?_, ?_, ?_, ?_, ?_⟩
    · rw [hfin]
      show s2.users req.user_id = _
      rw [e1', upd_same]
    · rw [hfin]
      show s2.items req.sku = _
      rw [e2', upd_same]
    · intro c p hc
      exact absurd hc (by simp)
    · intro k hk
      rw [hfin]
      show s2.users k = s.users k
      rw [e1']
      exact upd_other _ _ hk
    · intro k hk
      rw [hfin]
      show s2.items k = s.items k
      rw [e2']
      exact upd_other _ _ hk
    · intro k _
      rw [hfin]
      show s2.promos k = s.promos k
      rw [e3']
    · intro _
      rw [hfin]
      show s2.promos = s.promos
      exact e3'
  · by_cases hc : c = ""
    · subst hc
      unfold buildSteps at hrun
      rw [hpc] at hrun
      dsimp only at hrun
      rw [if_pos rfl] at hrun
      simp only [List.nil_append] at hrun
      obtain ⟨it2, usr2, hit2, _, husr2, _, e1, e2, e3⟩ := run_three_effects hrun
      have hit2' : s.items req.sku = some it2 := hit2
      have husr2' : s.users req.user_id = some usr2 := husr2
      rw [hit] at hit2'
      rw [hu] at husr2'
      injection hit2' with hit2'
      injection husr2' with husr2'
      subst hit2' husr2'
      have e1' : s2.users = upd s.users req.user_id
          { u with balance := u.balance - am.final_amount } := e1
      have e2' : s2.items = upd s.items req.sku
          { it with on_hand := it.on_hand - req.qty } := e2
      have e3' : s2.promos = s.promos := e3
      refine ⟨?_, ?_, ?_, ?_, ?_, ?_, ?_⟩
      · rw [hfin]
        show s2.users req.user_id = _
        rw [e1', upd_same]
      · rw [hfin]
        show s2.items req.sku = _
        rw [e2', upd_same]
      · intro c' p hc' hne _
        injection hc' with hc'
        exact absurd hc'.symm hne
      · intro k hk
        rw [hfin]
        show s2.users k = s.users k
        rw [e1']
        exact upd_other _ _ hk
      · intro k hk
        rw [hfin]
        show s2.items k = s.items k
        rw [e2']
        exact upd_other _ _ hk
      · intro k _
        rw [hfin]
        show s2.promos k = s.promos k
        rw [e3']
      · intro _
        rw [hfin]
        show s2.promos = s.promos
        exact e3'
    · unfold buildSteps at hrun
      rw [hpc] at hrun
      dsimp only at hrun
      rw [if_neg hc] at hrun
      simp only [List.cons_append, List.nil_append] at hrun
      obtain ⟨p2, sm, comps2, hp2, _, f1, f2, f3, hrest⟩ := run_promo_first hrun
      obtain ⟨it2, usr2, hit2, _, husr2, _, e1, e2, e3⟩ := run_three_effects hrest
      have hp2' : s.promos c = some p2 := hp2
      have hit2' : s.items req.sku = some it2 := by
        have step1 : sm.items req.sku = some it2 := hit2
        have step2 : sm.items = s.items := f2
        rw [← step2]
        exact step1
      have husr2' : s.users req.user_id = some usr2 := by
        have step1 : sm.users req.user_id = some usr2 := husr2
        have step2 : sm.users = s.users := f1
        rw [← step2]
        exact step1
      rw [hit] at hit2'
      rw [hu] at husr2'
      injection hit2' with hit2'
      injection husr2' with husr2'
      subst hit2' husr2'
      have e1' : s2.users = upd sm.users req.user_id
          { u with balance := u.balance - am.final_amount } := e1
      have e1'' : s2.users = upd s.users req.user_id
          { u with balance := u.balance - am.final_amount } := by
        rw [e1', show sm.users = s.users from f1]
      have e2' : s2.items = upd sm.items req.sku
          { it with on_hand := it.on_hand - req.qty } := e2
      have e2'' : s2.items = upd s.items req.sku
          { it with on_hand := it.on_hand - req.qty } := by
        rw [e2', show sm.items = s.items from f2]
      have e3' : s2.promos = sm.promos := e3
      have e3'' : s2.promos = upd s.promos c
          { p2 with remaining_uses := p2.remaining_uses - 1 } := by
        rw [e3']
        exact f3
      refine ⟨?_, ?_, ?_, ?_, ?_, ?_, ?_⟩
      · rw [hfin]
        show s2.users req.user_id = _
        rw [e1'', upd_same]
      · rw [hfin]
        show s2.items req.sku = _
        rw [e2'', upd_same]
      · intro c' p hc' hne hp
        injection hc' with hc'
        subst hc'
        rw [hp2'] at hp
        injection hp with hp
        subst hp
        rw [hfin]
        show s2.promos c = _
        rw [e3'', upd_same]
      · intro k hk
        rw [hfin]
        show s2.users k = s.users k
        rw [e1'']
        exact upd_other _ _ hk
      · intro k hk
        rw [hfin]
        show s2.items k = s.items k
        rw [e2'']
        exact upd_other _ _ hk
      · intro k hk
        have hkc : k ≠ c := fun hkk => hk (by rw [hkk])
        rw [hfin]
        show s2.promos k = s.promos k
        rw [e3'']
        exact upd_other _ _ hkc
      · intro hcontra
        rcases hcontra with h1 | h1
        · exact absurd h1 (by simp)
        · injection h1 with h1
          exact absurd h1 hc


/-! ### Claims C2 - C8 -/

/-- Claim C2: whenever `execute` reports an in-saga failure (returns false),
compensation restores every ledger entity map — users, items and promos — to
exactly its state before the call. -/
theorem C2_failure_rollback
    {s : Store} {req : OrderRequest} {failAt : Option String}
    (hfail : (execute s req failAt).2 = .ok false) :
    (execute s req failAt).1.users = s.users ∧
    (execute s req failAt).1.items = s.items ∧
    (execute s req failAt).1.promos = s.promos := by
  obtain ⟨am, s2, comps, res, hq, hus, ham, hrun, hdisj⟩ := execute_run hfail
  rcases hdisj with ⟨_, hbt, _⟩ | ⟨e, hres, _, hfin⟩
  · exact absurd hbt (by simp)
  subst hres
  have hw := runForward_undo _ _ _ _ _ hrun
    (s2.log (.sagaFailed req.order_id e)) rfl rfl rfl
  refine ⟨?_, ?_, ?_⟩
  · rw [hfin]
    show (compensateAll req.order_id (s2.log (.sagaFailed req.order_id e))
      comps.reverse).users = s.users
    exact hw.1
  · rw [hfin]
    show (compensateAll req.order_id (s2.log (.sagaFailed req.order_id e))
      comps.reverse).items = s.items
    exact hw.2.1
  · rw [hfin]
    show (compensateAll req.order_id (s2.log (.sagaFailed req.order_id e))
      comps.reverse).promos = s.promos
    exact hw.2.2

/-- Claim C3: on an in-saga failure, forward execution stops at index
`i = comps.length` of the built sequence (the completed steps are exactly the
first `i` built steps and the failing step is not among them), the forward
phase logs no compensation entry, and the compensation entries logged
afterwards are exactly the names of steps `0..i-1` in reverse execution
order. -/
theorem C3_compensation_order
    {s : Store} {req : OrderRequest} {failAt : Option String} {am : OrderAmounts}
    (hfail : (execute s req failAt).2 = .ok false)
    (ham : calculate_amounts s req = .ok am) :
    ∃ (s2 : Store) (comps : List Step) (e : SagaErr),
      runForward req.order_id failAt
        ((s.log (startLine req)).log (.amountsLine req.order_id am.base_amount
          am.discount_amount am.final_amount))
        (buildSteps req am.final_amount) = (s2, comps, some e) ∧
      comps = (buildSteps req am.final_amount).take comps.length ∧
      comps.length < (buildSteps req am.final_amount).length ∧
      (∃ t1, s2.logs = ((s.log (startLine req)).log (.amountsLine req.order_id
          am.base_amount am.discount_amount am.final_amount)).logs ++ t1 ∧
        compStarts t1 = []) ∧
      (∃ t2, (execute s req failAt).1.logs =
          s2.logs ++ [LogEntry.sagaFailed req.order_id e] ++ t2 ++
            [LogEntry.sagaEndFailed req.order_id] ∧
        compStarts t2 = comps.reverse.map Step.name) := by
  obtain ⟨am2, s2, comps, res, hq, hus, ham2, hrun, hdisj⟩ := execute_run hfail
  rw [ham] at ham2
  injection ham2 with ham2
  subst ham2
  rcases hdisj with ⟨_, hbt, _⟩ | ⟨e, hres, _, hfin⟩
  · exact absurd hbt (by simp)
  subst hres
  obtain ⟨g1, _, g3⟩ := runForward_prefix _ _ _ _ _ hrun
  obtain ⟨t1, ht1, hc1⟩ := runForward_logs _ _ _ _ _ hrun
  obtain ⟨t2, ht2, hc2⟩ := compensateAll_logs req.order_id comps.reverse
    (s2.log (.sagaFailed req.order_id e))
  refine ⟨s2, comps, e, hrun, g1, g3 (by simp), ⟨t1, ht1, hc1⟩, ⟨t2, ?_, hc2⟩⟩
  rw [hfin]
  show (compensateAll req.order_id (s2.log (.sagaFailed req.order_id e))
      comps.reverse).logs ++ [LogEntry.sagaEndFailed req.order_id] = _
  rw [ht2]
  rfl

/-- Claim C4: a request that passes pre-saga validation never raises: the
result is `Except.ok b`, and `b = true` exactly when the forward run of the
built step sequence finished without an error.  (Every compensating call of
this system is total, so the per-step compensation guard of the source has
nothing to catch and compensation always continues to the end.) -/
theorem C4_no_raise
    {s : Store} {req : OrderRequest} {failAt : Option String}
    (h1 : ¬ req.qty ≤ 0) (h2 : (s.users req.user_id).isSome)
    (h3 : (s.items req.sku).isSome) :
    ∃ (b : Bool) (am : OrderAmounts) (s2 : Store) (comps : List Step)
      (res : Option SagaErr),
      (execute s req failAt).2 = .ok b ∧
      calculate_amounts s req = .ok am ∧
      runForward req.order_id failAt
        ((s.log (startLine req)).log (.amountsLine req.order_id am.base_amount
          am.discount_amount am.final_amount))
        (buildSteps req am.final_amount) = (s2, comps, res) ∧
      (b = true ↔ res = none) := by
  obtain ⟨b, hb⟩ := execute_valid h1 h2 h3
  obtain ⟨am, s2, comps, res, _, _, ham, hrun, hdisj⟩ := execute_run hb
  refine ⟨b, am, s2, comps, res, hb, ham, hrun, ?_⟩
  rcases hdisj with ⟨hres, hbt, _⟩ | ⟨e, hres, hbf, _⟩
  · subst hres hbt
    exact ⟨fun _ => rfl, fun _ => rfl⟩
  · subst hres hbf
    constructor
    · intro hcontra
      exact absurd hcontra (by simp)
    · intro hcontra
      exact absurd hcontra (by simp)

/-- Claim C5: a request failing pre-saga validation (non-positive qty,
unknown user, or unknown sku) makes `execute` raise to the caller with the
ledger entities untouched and exactly one log line appended — the attempted
SAGA START line.  No step runs and no compensation runs. -/
theorem C5_validation_raises
    {s : Store} {req : OrderRequest} {failAt : Option String}
    (h : req.qty ≤ 0 ∨ s.users req.user_id = none ∨ s.items req.sku = none) :
    ∃ e, execute s req failAt =
      ({ s with logs := s.logs ++ [startLine req] }, .error e) :=
  execute_invalid h

/-- Claim C6 (amended): `calculate_discount` returns zero when the promo
code argument is absent, empty, unknown, or depleted, and
`min(discount_amount, base)` otherwise; the bounds `0 ≤ result ≤ base` hold
whenever the base amount is non-negative and the ledger's promo discount
amounts are non-negative (both bounds can fail without those hypotheses). -/
theorem C6_discount (s : Store) (pc : Option String) (base : ℚ) :
    (pc = none → calculate_discount s pc base = 0) ∧
    (pc = some "" → calculate_discount s pc base = 0) ∧
    (∀ c, pc = some c → s.promos c = none → calculate_discount s pc base = 0) ∧
    (∀ c p, pc = some c → s.promos c = some p → p.remaining_uses ≤ 0 →
        calculate_discount s pc base = 0) ∧
    (∀ c p, pc = some c → c ≠ "" → s.promos c = some p → ¬ p.remaining_uses ≤ 0 →
        calculate_discount s pc base = min p.discount_amount base) ∧
    (0 ≤ base →
      (∀ c p, pc = some c → s.promos c = some p → 0 ≤ p.discount_amount) →
      0 ≤ calculate_discount s pc base ∧ calculate_discount s pc base ≤ base) := by
  rcases pc with _ | c
  · refine ⟨fun _ => rfl, fun hcontra => Option.noConfusion hcontra, ?_, ?_, ?_, ?_⟩
    · intro c hc
      exact absurd hc (by simp)
    · intro c p hc
      exact absurd hc (by simp)
    · intro c p hc
      exact absurd hc (by simp)
    · intro hb _
      exact ⟨le_refl 0, hb⟩
  · by_cases hc : c = ""
    · subst hc
      have h0 : calculate_discount s (some "") base = 0 := by
        simp +decide [calculate_discount]
      refine ⟨fun hcontra => Option.noConfusion hcontra, fun _ => h0, ?_, ?_, ?_, ?_⟩
      · intro _ _ _
        exact h0
      · intro _ _ _ _ _
        exact h0
      · intro c' p hc' hne _ _
        injection hc' with hc'
        exact absurd hc'.symm hne
      · intro hb _
        rw [h0]
        exact ⟨le_refl 0, hb⟩
    · rcases hps : s.promos c with _ | p
      · have h0 : calculate_discount s (some c) base = 0 := by
          simp [calculate_discount, hc, hps]
        refine ⟨fun hcontra => Option.noConfusion hcontra, ?_, ?_, ?_, ?_, ?_⟩
        · intro hce
          exact absurd (Option.some.inj hce) hc
        · intro _ _ _
          exact h0
        · intro c' p hc' hp _
          rw [← Option.some.inj hc', hps] at hp
          exact Option.noConfusion hp
        · intro c' p hc' _ hp _
          rw [← Option.some.inj hc', hps] at hp
          exact Option.noConfusion hp
        · intro hb _
          rw [h0]
          exact ⟨le_refl 0, hb⟩
      · by_cases hd : p.remaining_uses ≤ 0
        · have h0 : calculate_discount s (some c) base = 0 := by
            simp [calculate_discount, hc, hps, hd]
          refine ⟨fun hcontra => Option.noConfusion hcontra, ?_, ?_, ?_, ?_, ?_⟩
          · intro hce
            exact absurd (Option.some.inj hce) hc
          · intro c' hc' hp
            rw [← Option.some.inj hc', hps] at hp
            exact Option.noConfusion hp
          · intro _ _ _ _ _
            exact h0
          · intro c' p' hc' _ hp hd'
            rw [← Option.some.inj hc', hps] at hp
            rw [← Option.some.inj hp] at hd'
            exact absurd hd hd'
          · intro hb _
            rw [h0]
            exact ⟨le_refl 0, hb⟩
        · have hval : calculate_discount s (some c) base = min p.discount_amount base := by
            simp [calculate_discount, hc, hps, hd]
          refine ⟨fun hcontra => Option.noConfusion hcontra, ?_, ?_, ?_, ?_, ?_⟩
          · intro hce
            exact absurd (Option.some.inj hce) hc
          · intro c' hc' hp
            rw [← Option.some.inj hc', hps] at hp
            exact Option.noConfusion hp
          · intro c' p' hc' hp hd'
            rw [← Option.some.inj hc', hps] at hp
            rw [← Option.some.inj hp] at hd'
            exact absurd hd' hd
          · intro c' p' hc' _ hp _
            rw [← Option.some.inj hc', hps] at hp
            rw [← Option.some.inj hp]
            exact hval
          · intro hb hnn
            rw [hval]
            exact ⟨le_min (hnn c p rfl hps) hb, min_le_right _ _⟩

/-- A store with no users, items or promos, used for concrete instances. -/
def emptyStore : Store where
  users := fun _ => none
  items := fun _ => none
  promos := fun _ => none
  logs := []

/-- Claim C6 counterexample: with no promo supplied and base amount −1 the
source returns 0, which exceeds the base amount, refuting "never exceeds the
base amount" over every base amount as the claim states it. -/
theorem C6_counterexample :
    calculate_discount emptyStore none (-1) = 0 ∧
    ¬ calculate_discount emptyStore none (-1) ≤ -1 := by
  constructor
  · rfl
  · decide

/-- Claim C7: when the sku exists and the item's price is a two-decimal
fixed-point value (the data model's representation of money), the computed
amounts satisfy `base = price × qty` and `final = base − discount` exactly,
and all three amounts are quantized to two fractional digits. -/
theorem C7_amounts
    {s : Store} {req : OrderRequest} {item : InventoryItem}
    (hit : s.items req.sku = some item)
    (hp : Quantized2 item.price) :
    ∃ am, calculate_amounts s req = .ok am ∧
      am.base_amount = item.price * (req.qty : ℚ) ∧
      am.discount_amount =
        quantize2 (calculate_discount s req.promo_code am.base_amount) ∧
      am.final_amount = am.base_amount - am.discount_amount ∧
      Quantized2 am.base_amount ∧ Quantized2 am.discount_amount ∧
      Quantized2 am.final_amount := by
  have hb : Quantized2 (item.price * (req.qty : ℚ)) := hp.mul_intCast req.qty
  have hbe : quantize2 (item.price * (req.qty : ℚ)) = item.price * (req.qty : ℚ) :=
    quantize2_of_quantized hb
  refine ⟨{ base_amount := quantize2 (item.price * (req.qty : ℚ)),
            discount_amount := quantize2 (calculate_discount s req.promo_code
              (quantize2 (item.price * (req.qty : ℚ)))),
            final_amount := quantize2 (quantize2 (item.price * (req.qty : ℚ)) -
              quantize2 (calculate_discount s req.promo_code
                (quantize2 (item.price * (req.qty : ℚ))))) },
    ?_, hbe, rfl, ?_, quantized2_quantize2 _, quantized2_quantize2 _,
    quantized2_quantize2 _⟩
  · unfold calculate_amounts
    rw [hit]
  · exact quantize2_of_quantized ((quantized2_quantize2 _).sub (quantized2_quantize2 _))

/-- Claim C8 (amended: the promo step is included iff a non-empty promo code
was supplied; the source's truthiness guard skips it for the empty string):
the built sequence is exactly `[ReservePromoUse?] → ReserveInventory →
ChargeUserBalance → FinalizeOrder` and always has at least three steps. -/
theorem C8_step_sequence (req : OrderRequest) (f : ℚ) :
    (∀ c, req.promo_code = some c → c ≠ "" →
      buildSteps req f = [Step.reservePromoUse c,
        Step.reserveInventory req.sku req.qty,
        Step.chargeUserBalance req.user_id f, Step.finalizeOrder]) ∧
    ((req.promo_code = none ∨ req.promo_code = some "") →
      buildSteps req f = [Step.reserveInventory req.sku req.qty,
        Step.chargeUserBalance req.user_id f, Step.finalizeOrder]) ∧
    3 ≤ (buildSteps req f).length := by
  refine ⟨?_, ?_, ?_⟩
  · intro c hc hne
    unfold buildSteps
    rw [hc]
    dsimp only
    rw [if_neg hne]
    rfl
  · intro h
    rcases h with h | h
    · unfold buildSteps
      rw [h]
      rfl
    · unfold buildSteps
      rw [h]
      dsimp only
      rw [if_pos rfl]
      rfl
  · unfold buildSteps
    rcases req.promo_code with _ | c
    · simp
    · dsimp only
      by_cases hc : c = ""
      · rw [if_pos hc]
        simp
      · rw [if_neg hc]
        simp

/-- A request supplying the empty string as its promo code. -/
def emptyPromoReq : OrderRequest :=
  { order_id := 1, user_id := 1, sku := "ITEM001", qty := 1, promo_code := some "" }

/-- Claim C8 counterexample: a supplied empty promo code does not put
`ReservePromoUse` into the sequence, refuting "included iff a promo code was
supplied (independent of the code's validity)" as stated. -/
theorem C8_counterexample :
    emptyPromoReq.promo_code = some "" ∧
    buildSteps emptyPromoReq 100 = [Step.reserveInventory "ITEM001" 1,
      Step.chargeUserBalance 1 100, Step.finalizeOrder] := by
  exact ⟨rfl, rfl⟩

/-- Store for the C1 counterexample: it contains a promo whose code is the
empty string. -/
def ceStore : Store where
  users := fun k => if k = 1 then some ⟨1, 100⟩ else none
  items := fun k => if k = "A" then some ⟨"A", 1, 5⟩ else none
  promos := fun k => if k = "" then some ⟨"", 1, 5⟩ else none
  logs := []

/-- Request for the C1 counterexample. -/
def ceReq : OrderRequest :=
  { order_id := 7, user_id := 1, sku := "A", qty := 1, promo_code := some "" }

/-- Claim C1 counterexample: an order supplying the empty string as promo
code succeeds, yet the promo with that code keeps its remaining uses (1, not
1 − 1 = 0), refuting the claim's promo clause for "a promo code was
supplied" read literally. -/
theorem C1_counterexample :
    ceReq.promo_code = some "" ∧
    ceStore.promos "" = some ⟨"", 1, 5⟩ ∧
    (execute ceStore ceReq none).2 = .ok true ∧
    ((execute ceStore ceReq none).1.promos "").map PromoCode.remaining_uses = some 1 := by
  refine ⟨rfl, rfl, ?_, ?_⟩
  · norm_num +decide [execute, calculate_amounts, calculate_discount, buildSteps,
      runForward, runStep, stepExecute, reserve_inventory, charge_user_balance,
      Step.name, Store.log, upd, startLine, ceStore, ceReq, quantize2,
      roundHalfEven, ratFloor]
  · norm_num +decide [execute, calculate_amounts, calculate_discount, buildSteps,
      runForward, runStep, stepExecute, reserve_inventory, charge_user_balance,
      Step.name, Store.log, upd, startLine, ceStore, ceReq, quantize2,
      roundHalfEven, ratFloor]


/-! ### Claim C9 -/

/-- The spec's ledger invariant: all stock counts and promo uses are
non-negative. -/
def NonNegS (s : Store) : Prop :=
  (∀ k it, s.items k = some it → 0 ≤ it.on_hand) ∧
  (∀ k p, s.promos k = some p → 0 ≤ p.remaining_uses)

theorem stepExecute_nonneg {s s' : Store} {oid : ℤ} {st : Step} {r : Option SagaErr}
    (hs : NonNegS s) (h : stepExecute s oid st = (s', r)) : NonNegS s' := by
  rcases r with _ | e
  case some => rw [stepExecute_err h]; exact hs
  case none =>
  cases st with
  | reservePromoUse c =>
    simp only [stepExecute] at h
    obtain ⟨p, hp, hlt, f1, f2, f3⟩ := reserve_promo_ok h
    refine ⟨fun k it hk => hs.1 k it (by rw [← f2]; exact hk), ?_⟩
    intro k p2 hk
    rw [f3] at hk
    unfold upd at hk
    split at hk
    · rw [← Option.some.inj hk]
      show 0 ≤ p.remaining_uses - 1
      omega
    · exact hs.2 k p2 hk
  | reserveInventory sk q =>
    simp only [stepExecute] at h
    obtain ⟨it, hit, hlt, f1, f2, f3⟩ := reserve_inventory_ok h
    refine ⟨?_, fun k p hk => hs.2 k p (by rw [← f2]; exact hk)⟩
    intro k it2 hk
    rw [f3] at hk
    unfold upd at hk
    split at hk
    · rw [← Option.some.inj hk]
      show 0 ≤ it.on_hand - q
      omega
    · exact hs.1 k it2 hk
  | chargeUserBalance u a =>
    simp only [stepExecute] at h
    obtain ⟨usr, husr, hlt, f1, f2, f3⟩ := charge_ok h
    exact ⟨fun k it hk => hs.1 k it (by rw [← f1]; exact hk),
           fun k p hk => hs.2 k p (by rw [← f2]; exact hk)⟩
  | finalizeOrder =>
    simp only [stepExecute] at h
    injection h with h1 _
    rw [← h1]
    exact hs

/-- The side condition needed for a compensating call to preserve
non-negativity: the released quantity must itself be non-negative. -/
def stepQtyOK : Step → Prop
  | .reserveInventory _ q => 0 ≤ q
  | _ => True

theorem stepCompensate_nonneg {s : Store} {oid : ℤ} {st : Step}
    (hs : NonNegS s) (hq : stepQtyOK st) : NonNegS (stepCompensate s oid st) := by
  cases st with
  | reservePromoUse c =>
    show NonNegS (release_promo_use s oid c)
    obtain ⟨f1, f2, f3⟩ := release_promo_fields s oid c
    refine ⟨fun k it hk => hs.1 k it (by rw [← f2]; exact hk), ?_⟩
    intro k p2 hk
    rw [f3] at hk
    rcases hp : s.promos c with _ | p
    · rw [hp] at hk
      exact hs.2 k p2 hk
    · rw [hp] at hk
      have hk2 : upd s.promos c
          { p with remaining_uses := p.remaining_uses + 1 } k = some p2 := hk
      unfold upd at hk2
      split at hk2
      · rw [← Option.some.inj hk2]
        show 0 ≤ p.remaining_uses + 1
        have := hs.2 c p hp
        omega
      · exact hs.2 k p2 hk2
  | reserveInventory sk q =>
    show NonNegS (release_inventory s oid sk q)
    obtain ⟨f1, f2, f3⟩ := release_inventory_fields s oid sk q
    refine ⟨?_, fun k p hk => hs.2 k p (by rw [← f2]; exact hk)⟩
    intro k it2 hk
    rw [f3] at hk
    rcases hp : s.items sk with _ | it
    · rw [hp] at hk
      exact hs.1 k it2 hk
    · rw [hp] at hk
      have hk2 : upd s.items sk
          { it with on_hand := it.on_hand + q } k = some it2 := hk
      unfold upd at hk2
      split at hk2
      · rw [← Option.some.inj hk2]
        show 0 ≤ it.on_hand + q
        have h1 := hs.1 sk it hp
        have h2 : (0 : ℤ) ≤ q := hq
        omega
      · exact hs.1 k it2 hk2
  | chargeUserBalance u a =>
    show NonNegS (refund_user_balance s oid u a)
    obtain ⟨f1, f2, f3⟩ := refund_fields s oid u a
    exact ⟨fun k it hk => hs.1 k it (by rw [← f1]; exact hk),
           fun k p hk => hs.2 k p (by rw [← f2]; exact hk)⟩
  | finalizeOrder =>
    exact hs

theorem runForward_nonneg {oid : ℤ} {failAt : Option String} :
    ∀ (ss : List Step) (s s1 : Store) (comps : List Step) (res : Option SagaErr),
      NonNegS s → runForward oid failAt s ss = (s1, comps, res) → NonNegS s1 := by
  intro ss
  induction ss with
  | nil =>
    intro s s1 comps res hs h
    injection h with h1 _
    rw [← h1]
    exact hs
  | cons st rest ih =>
    intro s s1 comps res hs h
    unfold runForward at h
    split at h
    · injection h with h1 _
      rw [← h1]
      exact hs
    · split at h
      next sa e heq =>
        injection h with h1 _
        rw [← h1, runStep_err heq]
        exact hs
      next sa heq =>
        obtain ⟨sm, hsm, hsa⟩ := runStep_ok heq
        subst hsa
        rcases hr : runForward oid failAt (sm.log (.stepOk oid st.name)) rest
          with ⟨sb, comps2, res2⟩
        rw [hr] at h
        injection h with h1 _
        rw [← h1]
        have hsm_nn : NonNegS sm := stepExecute_nonneg
          (show NonNegS (s.log (.stepStart oid st.name)) from hs) hsm
        exact ih (sm.log (.stepOk oid st.name)) sb comps2 res2
          (show NonNegS (sm.log (.stepOk oid st.name)) from hsm_nn) hr

theorem compensateAll_nonneg {oid : ℤ} :
    ∀ (l : List Step) (s : Store), NonNegS s → (∀ st ∈ l, stepQtyOK st) →
      NonNegS (compensateAll oid s l) := by
  intro l
  induction l with
  | nil =>
    intro s hs _
    exact hs
  | cons st rest ih =>
    intro s hs hq
    show NonNegS (compensateAll oid (runCompensation s oid st) rest)
    refine ih _ ?_ (fun st2 hst2 => hq st2 (List.mem_cons_of_mem _ hst2))
    exact stepCompensate_nonneg hs (hq st (List.mem_cons_self _ _))

theorem buildSteps_qtyOK {req : OrderRequest} {f : ℚ} (hq : ¬ req.qty ≤ 0) :
    ∀ st ∈ buildSteps req f, stepQtyOK st := by
  intro st hst
  unfold buildSteps at hst
  rcases hpc : req.promo_code with _ | c
  all_goals rw [hpc] at hst
  · have hst2 : st ∈ [Step.reserveInventory req.sku req.qty,
        Step.chargeUserBalance req.user_id f, Step.finalizeOrder] := hst
    simp only [List.mem_cons, List.not_mem_nil, or_false] at hst2
    rcases hst2 with h | h | h <;> subst h
    · show 0 ≤ req.qty
      omega
    · exact trivial
    · exact trivial
  · have hst2 : st ∈ (if c = "" then [] else [Step.reservePromoUse c]) ++
        [Step.reserveInventory req.sku req.qty,
         Step.chargeUserBalance req.user_id f, Step.finalizeOrder] := hst
    by_cases hc : c = ""
    · rw [if_pos hc] at hst2
      simp only [List.nil_append, List.mem_cons, List.not_mem_nil, or_false] at hst2
      rcases hst2 with h | h | h <;> subst h
      · show 0 ≤ req.qty
        omega
      · exact trivial
      · exact trivial
    · rw [if_neg hc] at hst2
      simp only [List.cons_append, List.nil_append, List.mem_cons,
        List.not_mem_nil, or_false] at hst2
      rcases hst2 with h | h | h | h <;> subst h
      · exact trivial
      · show 0 ≤ req.qty
        omega
      · exact trivial
      · exact trivial

theorem execute_error {s : Store} {req : OrderRequest} {failAt : Option String}
    {e : ValidationErr} (h : (execute s req failAt).2 = .error e) :
    (execute s req failAt).1 = s.log (startLine req) := by
  unfold execute at h ⊢
  by_cases h1 : req.qty ≤ 0
  · rw [if_pos h1]
  · rw [if_neg h1] at h ⊢
    by_cases h2 : ((s.log (startLine req)).users req.user_id).isNone
    · rw [if_pos h2]
    · rw [if_neg h2] at h ⊢
      rcases ham : calculate_amounts s req with e2 | am
      · rw [calculate_amounts_log, ham]
      · rw [calculate_amounts_log, ham] at h ⊢
        dsimp only at h ⊢
        rcases hr : runForward req.order_id failAt
            ((s.log (startLine req)).log (.amountsLine req.order_id am.base_amount
              am.discount_amount am.final_amount))
            (buildSteps req am.final_amount) with ⟨s2, comps, res⟩
        rw [hr] at h
        cases res
        · exact Except.noConfusion h
        · exact Except.noConfusion h

theorem execute_nonneg {s : Store} {req : OrderRequest} {failAt : Option String}
    (hs : NonNegS s) : NonNegS (execute s req failAt).1 := by
  rcases hres : (execute s req failAt).2 with e | b
  · rw [execute_error hres]
    exact hs
  · obtain ⟨am, s2, comps, res, hq, _, _, hrun, hdisj⟩ := execute_run hres
    have hs2 : NonNegS s2 := runForward_nonneg _ _ _ _ _
      (show NonNegS ((s.log (startLine req)).log (.amountsLine req.order_id
        am.base_amount am.discount_amount am.final_amount)) from hs) hrun
    rcases hdisj with ⟨_, _, hfin⟩ | ⟨e, _, _, hfin⟩
    · rw [hfin]
      exact hs2
    · rw [hfin]
      have hcomps : ∀ st ∈ comps.reverse, stepQtyOK st := by
        intro st hst
        rw [List.mem_reverse] at hst
        obtain ⟨g1, _, _⟩ := runForward_prefix _ _ _ _ _ hrun
        have hmem : st ∈ buildSteps req am.final_amount := by
          rw [g1] at hst
          exact List.take_subset _ _ hst
        exact buildSteps_qtyOK hq st hmem
      exact compensateAll_nonneg _ _ hs2 hcomps

/-- Claim C9 (amended: `release_inventory` preserves the invariant only for a
non-negative quantity argument — a negative release quantity can drive stock
negative, see the counterexample): starting from a ledger whose stock counts
and promo uses are non-negative, every discount/inventory service operation
and every complete `execute` run preserves non-negativity. -/
theorem C9_nonneg (s : Store) (hs : NonNegS s) :
    (∀ oid c, NonNegS (reserve_promo_use s oid c).1) ∧
    (∀ oid c, NonNegS (release_promo_use s oid c)) ∧
    (∀ oid sk q, NonNegS (reserve_inventory s oid sk q).1) ∧
    (∀ oid sk q, 0 ≤ q → NonNegS (release_inventory s oid sk q)) ∧
    (∀ oid u a, NonNegS (charge_user_balance s oid u a).1) ∧
    (∀ oid u a, NonNegS (refund_user_balance s oid u a)) ∧
    (∀ req failAt, NonNegS (execute s req failAt).1) := by
  refine ⟨?_, ?_, ?_, ?_, ?_, ?_, fun req failAt => execute_nonneg hs⟩
  · intro oid c
    rcases hx : reserve_promo_use s oid c with ⟨s', r⟩
    exact stepExecute_nonneg hs (show stepExecute s oid (.reservePromoUse c) = (s', r) from hx)
  · intro oid c
    exact @stepCompensate_nonneg s oid (.reservePromoUse c) hs True.intro
  · intro oid sk q
    rcases hx : reserve_inventory s oid sk q with ⟨s', r⟩
    exact stepExecute_nonneg hs
      (show stepExecute s oid (.reserveInventory sk q) = (s', r) from hx)
  · intro oid sk q hq0
    exact @stepCompensate_nonneg s oid (.reserveInventory sk q) hs hq0
  · intro oid u a
    rcases hx : charge_user_balance s oid u a with ⟨s', r⟩
    exact stepExecute_nonneg hs
      (show stepExecute s oid (.chargeUserBalance u a) = (s', r) from hx)
  · intro oid u a
    exact @stepCompensate_nonneg s oid (.chargeUserBalance u a) hs True.intro

/-- Store for the C9 counterexample: one item with zero stock. -/
def negStore : Store where
  users := fun _ => none
  items := fun k => if k = "X" then some ⟨"X", 1, 0⟩ else none
  promos := fun _ => none
  logs := []

/-- Claim C9 counterexample: `release_inventory` with quantity −1 on a ledger
satisfying the invariant drives the stock of "X" to −1, refuting the claim
for arbitrary single service operations. -/
theorem C9_counterexample :
    NonNegS negStore ∧
    (release_inventory negStore 1 "X" (-1)).items "X" =
      some { sku := "X", price := 1, on_hand := -1 } ∧
    ¬ NonNegS (release_inventory negStore 1 "X" (-1)) := by
  refine ⟨⟨?_, ?_⟩, ?_, ?_⟩
  · intro k it h
    simp only [negStore] at h
    split at h
    · rw [← Option.some.inj h]
    · exact Option.noConfusion h
  · intro k p h
    simp only [negStore] at h
    exact Option.noConfusion h
  · decide
  · intro hcontra
    have h2 := hcontra.1 "X" { sku := "X", price := 1, on_hand := -1 } (by decide)
    exact absurd h2 (by decide)


/-! ### Claim C10 -/

/-- Every step built for a request targets only that request's own keys. -/
def StepBound (req : OrderRequest) : Step → Prop
  | .reservePromoUse c => req.promo_code = some c
  | .reserveInventory sk _ => sk = req.sku
  | .chargeUserBalance uid _ => uid = req.user_id
  | .finalizeOrder => True

/-- Frame relation between two stores relative to a request: only the
request's user, item and promo entries may change, no entity appears or
disappears, and the log only grows by appending. -/
def FrameOK (req : OrderRequest) (s s' : Store) : Prop :=
  (∀ k, k ≠ req.user_id → s'.users k = s.users k) ∧
  (∀ k, k ≠ req.sku → s'.items k = s.items k) ∧
  (∀ k, req.promo_code ≠ some k → s'.promos k = s.promos k) ∧
  (∀ k, (s'.users k).isSome = (s.users k).isSome) ∧
  (∀ k, (s'.items k).isSome = (s.items k).isSome) ∧
  (∀ k, (s'.promos k).isSome = (s.promos k).isSome) ∧
  (∃ t, s'.logs = s.logs ++ t)

theorem frameOK_refl (req : OrderRequest) (s : Store) : FrameOK req s s :=
  ⟨fun _ _ => rfl, fun _ _ => rfl, fun _ _ => rfl, fun _ => rfl, fun _ => rfl,
   fun _ => rfl, ⟨[], (List.append_nil _).symm⟩⟩

theorem frameOK_trans {req : OrderRequest} {s1 s2 s3 : Store}
    (h1 : FrameOK req s1 s2) (h2 : FrameOK req s2 s3) : FrameOK req s1 s3 := by
  obtain ⟨a1, a2, a3, a4, a5, a6, t1, ht1⟩ := h1
  obtain ⟨b1, b2, b3, b4, b5, b6, t2, ht2⟩ := h2
  exact ⟨fun k hk => (b1 k hk).trans (a1 k hk),
         fun k hk => (b2 k hk).trans (a2 k hk),
         fun k hk => (b3 k hk).trans (a3 k hk),
         fun k => (b4 k).trans (a4 k),
         fun k => (b5 k).trans (a5 k),
         fun k => (b6 k).trans (a6 k),
         ⟨t1 ++ t2, by rw [ht2, ht1, List.append_assoc]⟩⟩

theorem frameOK_log (req : OrderRequest) (s : Store) (e : LogEntry) :
    FrameOK req s (s.log e) :=
  ⟨fun _ _ => rfl, fun _ _ => rfl, fun _ _ => rfl, fun _ => rfl, fun _ => rfl,
   fun _ => rfl, ⟨[e], rfl⟩⟩

theorem stepExecute_frame {req : OrderRequest} {s s' : Store} {oid : ℤ} {st : Step}
    {r : Option SagaErr} (hb : StepBound req st)
    (h : stepExecute s oid st = (s', r)) : FrameOK req s s' := by
  obtain ⟨tl, htl, _⟩ := stepExecute_logs h
  rcases r with _ | e
  case some => rw [stepExecute_err h]; exact frameOK_refl req s
  case none =>
  cases st with
  | reservePromoUse c =>
    simp only [stepExecute] at h
    obtain ⟨p, hp, _, f1, f2, f3⟩ := reserve_promo_ok h
    have hc : req.promo_code = some c := hb
    refine ⟨fun k _ => by rw [f1], fun k _ => by rw [f2], ?_, fun k => by rw [f1],
      fun k => by rw [f2], ?_, ⟨tl, htl⟩⟩
    · intro k hk
      have hkc : k ≠ c := fun he => hk (by rw [he, hc])
      rw [f3]
      exact upd_other _ _ hkc
    · intro k
      rw [f3]
      by_cases hkc : k = c
      · subst hkc
        rw [upd_same, hp]
        rfl
      · rw [upd_other _ _ hkc]
  | reserveInventory sk q =>
    simp only [stepExecute] at h
    obtain ⟨it, hit, _, f1, f2, f3⟩ := reserve_inventory_ok h
    have hsk : sk = req.sku := hb
    refine ⟨fun k _ => by rw [f1], ?_, fun k _ => by rw [f2], fun k => by rw [f1],
      ?_, fun k => by rw [f2], ⟨tl, htl⟩⟩
    · intro k hk
      have hkc : k ≠ sk := fun he => hk (he.trans hsk)
      rw [f3]
      exact upd_other _ _ hkc
    · intro k
      rw [f3]
      by_cases hkc : k = sk
      · subst hkc
        rw [upd_same, hit]
        rfl
      · rw [upd_other _ _ hkc]
  | chargeUserBalance u a =>
    simp only [stepExecute] at h
    obtain ⟨usr, husr, _, f1, f2, f3⟩ := charge_ok h
    have hu : u = req.user_id := hb
    refine ⟨?_, fun k _ => by rw [f1], fun k _ => by rw [f2], ?_,
      fun k => by rw [f1], fun k => by rw [f2], ⟨tl, htl⟩⟩
    · intro k hk
      have hkc : k ≠ u := fun he => hk (he.trans hu)
      rw [f3]
      exact upd_other _ _ hkc
    · intro k
      rw [f3]
      by_cases hkc : k = u
      · subst hkc
        rw [upd_same, husr]
        rfl
      · rw [upd_other _ _ hkc]
  | finalizeOrder =>
    simp only [stepExecute] at h
    injection h with h1 _
    rw [← h1]
    exact frameOK_log req s _

theorem stepCompensate_frame {req : OrderRequest} {s : Store} {oid : ℤ} {st : Step}
    (hb : StepBound req st) : FrameOK req s (stepCompensate s oid st) := by
  cases st with
  | reservePromoUse c =>
    show FrameOK req s (release_promo_use s oid c)
    have hc : req.promo_code = some c := hb
    obtain ⟨f1, f2, f3⟩ := release_promo_fields s oid c
    obtain ⟨tl, htl, _⟩ := stepCompensate_logs s oid (.reservePromoUse c)
    rcases hp : s.promos c with _ | p
    · have f3x : (release_promo_use s oid c).promos = s.promos := by rw [f3, hp]
      exact ⟨fun k _ => by rw [f1], fun k _ => by rw [f2], fun k _ => by rw [f3x],
        fun k => by rw [f1], fun k => by rw [f2], fun k => by rw [f3x], ⟨tl, htl⟩⟩
    · have f3x : (release_promo_use s oid c).promos =
          upd s.promos c { p with remaining_uses := p.remaining_uses + 1 } := by
        rw [f3, hp]
      refine ⟨fun k _ => by rw [f1], fun k _ => by rw [f2], ?_, fun k => by rw [f1],
        fun k => by rw [f2], ?_, ⟨tl, htl⟩⟩
      · intro k hk
        have hkc : k ≠ c := fun he => hk (by rw [he, hc])
        rw [f3x]
        exact upd_other _ _ hkc
      · intro k
        rw [f3x]
        by_cases hkc : k = c
        · subst hkc
          rw [upd_same, hp]
          rfl
        · rw [upd_other _ _ hkc]
  | reserveInventory sk q =>
    show FrameOK req s (release_inventory s oid sk q)
    have hsk : sk = req.sku := hb
    obtain ⟨f1, f2, f3⟩ := release_inventory_fields s oid sk q
    obtain ⟨tl, htl, _⟩ := stepCompensate_logs s oid (.reserveInventory sk q)
    rcases hp : s.items sk with _ | it
    · have f3x : (release_inventory s oid sk q).items = s.items := by rw [f3, hp]
      exact ⟨fun k _ => by rw [f1], fun k _ => by rw [f3x], fun k _ => by rw [f2],
        fun k => by rw [f1], fun k => by rw [f3x], fun k => by rw [f2], ⟨tl, htl⟩⟩
    · have f3x : (release_inventory s oid sk q).items =
          upd s.items sk { it with on_hand := it.on_hand + q } := by
        rw [f3, hp]
      refine ⟨fun k _ => by rw [f1], ?_, fun k _ => by rw [f2], fun k => by rw [f1],
        ?_, fun k => by rw [f2], ⟨tl, htl⟩⟩
      · intro k hk
        have hkc : k ≠ sk := fun he => hk (he.trans hsk)
        rw [f3x]
        exact upd_other _ _ hkc
      · intro k
        rw [f3x]
        by_cases hkc : k = sk
        · subst hkc
          rw [upd_same, hp]
          rfl
        · rw [upd_other _ _ hkc]
  | chargeUserBalance u a =>
    show FrameOK req s (refund_user_balance s oid u a)
    have hu : u = req.user_id := hb
    obtain ⟨f1, f2, f3⟩ := refund_fields s oid u a
    obtain ⟨tl, htl, _⟩ := stepCompensate_logs s oid (.chargeUserBalance u a)
    rcases hp : s.users u with _ | usr
    · have f3x : (refund_user_balance s oid u a).users = s.users := by rw [f3, hp]
      exact ⟨fun k _ => by rw [f3x], fun k _ => by rw [f1], fun k _ => by rw [f2],
        fun k => by rw [f3x], fun k => by rw [f1], fun k => by rw [f2], ⟨tl, htl⟩⟩
    · have f3x : (refund_user_balance s oid u a).users =
          upd s.users u { usr with balance := usr.balance + a } := by
        rw [f3, hp]
      refine ⟨?_, fun k _ => by rw [f1], fun k _ => by rw [f2], ?_,
        fun k => by rw [f1], fun k => by rw [f2], ⟨tl, htl⟩⟩
      · intro k hk
        have hkc : k ≠ u := fun he => hk (he.trans hu)
        rw [f3x]
        exact upd_other _ _ hkc
      · intro k
        rw [f3x]
        by_cases hkc : k = u
        · subst hkc
          rw [upd_same, hp]
          rfl
        · rw [upd_other _ _ hkc]
  | finalizeOrder =>
    exact frameOK_log req s _

theorem runForward_frame {req : OrderRequest} {oid : ℤ} {failAt : Option String} :
    ∀ (ss : List Step) (s s1 : Store) (comps : List Step) (res : Option SagaErr),
      (∀ st ∈ ss, StepBound req st) →
      runForward oid failAt s ss = (s1, comps, res) → FrameOK req s s1 := by
  intro ss
  induction ss with
  | nil =>
    intro s s1 comps res _ h
    injection h with h1 _
    rw [← h1]
    exact frameOK_refl req s
  | cons st rest ih =>
    intro s s1 comps res hbs h
    unfold runForward at h
    split at h
    · injection h with h1 _
      rw [← h1]
      exact frameOK_refl req s
    · split at h
      next sa e heq =>
        injection h with h1 _
        rw [← h1, runStep_err heq]
        exact frameOK_log req s _
      next sa heq =>
        obtain ⟨sm, hsm, hsa⟩ := runStep_ok heq
        subst hsa
        rcases hr : runForward oid failAt (sm.log (.stepOk oid st.name)) rest
          with ⟨sb, comps2, res2⟩
        rw [hr] at h
        injection h with h1 _
        rw [← h1]
        have hf1 : FrameOK req s (s.log (.stepStart oid st.name)) := frameOK_log req s _
        have hf2 := stepExecute_frame (hbs st (List.mem_cons_self _ _)) hsm
        have hf3 : FrameOK req sm (sm.log (.stepOk oid st.name)) := frameOK_log req sm _
        have hf4 := ih (sm.log (.stepOk oid st.name)) sb comps2 res2
          (fun st2 h2 => hbs st2 (List.mem_cons_of_mem _ h2)) hr
        exact frameOK_trans (frameOK_trans (frameOK_trans hf1 hf2) hf3) hf4

theorem compensateAll_frame {req : OrderRequest} {oid : ℤ} :
    ∀ (l : List Step) (s : Store), (∀ st ∈ l, StepBound req st) →
      FrameOK req s (compensateAll oid s l) := by
  intro l
  induction l with
  | nil =>
    intro s _
    exact frameOK_refl req s
  | cons st rest ih =>
    intro s hbs
    show FrameOK req s (compensateAll oid (runCompensation s oid st) rest)
    refine frameOK_trans ?_ (ih _ (fun st2 h2 => hbs st2 (List.mem_cons_of_mem _ h2)))
    refine frameOK_trans (frameOK_log req s (.compStart oid st.name)) ?_
    refine frameOK_trans (@stepCompensate_frame req (s.log (.compStart oid st.name)) oid st
      (hbs st (List.mem_cons_self _ _))) ?_
    exact frameOK_log req (stepCompensate (s.log (.compStart oid st.name)) oid st)
      (.compOk oid st.name)

theorem buildSteps_bound (req : OrderRequest) (f : ℚ) :
    ∀ st ∈ buildSteps req f, StepBound req st := by
  intro st hst
  unfold buildSteps at hst
  rcases hpc : req.promo_code with _ | c
  all_goals rw [hpc] at hst
  · have hst2 : st ∈ [Step.reserveInventory req.sku req.qty,
        Step.chargeUserBalance req.user_id f, Step.finalizeOrder] := hst
    simp only [List.mem_cons, List.not_mem_nil, or_false] at hst2
    rcases hst2 with h | h | h <;> subst h
    · exact rfl
    · exact rfl
    · exact trivial
  · have hst2 : st ∈ (if c = "" then [] else [Step.reservePromoUse c]) ++
        [Step.reserveInventory req.sku req.qty,
         Step.chargeUserBalance req.user_id f, Step.finalizeOrder] := hst
    by_cases hc : c = ""
    · rw [if_pos hc] at hst2
      simp only [List.nil_append, List.mem_cons, List.not_mem_nil, or_false] at hst2
      rcases hst2 with h | h | h <;> subst h
      · exact rfl
      · exact rfl
      · exact trivial
    · rw [if_neg hc] at hst2
      simp only [List.cons_append, List.nil_append, List.mem_cons,
        List.not_mem_nil, or_false] at hst2
      rcases hst2 with h | h | h | h <;> subst h
      · exact hpc
      · exact rfl
      · exact rfl
      · exact trivial

/-- Claim C10: an `execute` call can only change the ledger entries of the
request's own user id, sku and promo code; every other user, item and promo
is unchanged, no entity is added to or removed from the three maps, and the
log grows only by appending. -/
theorem C10_frame (s : Store) (req : OrderRequest) (failAt : Option String) :
    (∀ k, k ≠ req.user_id → (execute s req failAt).1.users k = s.users k) ∧
    (∀ k, k ≠ req.sku → (execute s req failAt).1.items k = s.items k) ∧
    (∀ k, req.promo_code ≠ some k → (execute s req failAt).1.promos k = s.promos k) ∧
    (∀ k, ((execute s req failAt).1.users k).isSome = (s.users k).isSome) ∧
    (∀ k, ((execute s req failAt).1.items k).isSome = (s.items k).isSome) ∧
    (∀ k, ((execute s req failAt).1.promos k).isSome = (s.promos k).isSome) ∧
    (∃ t, (execute s req failAt).1.logs = s.logs ++ t) := by
  have hframe : FrameOK req s (execute s req failAt).1 := by
    rcases hres : (execute s req failAt).2 with e | b
    · rw [execute_error hres]
      exact frameOK_log req s _
    · obtain ⟨am, s2, comps, res, hq, _, _, hrun, hdisj⟩ := execute_run hres
      have hb := buildSteps_bound req am.final_amount
      have hf1 : FrameOK req s ((s.log (startLine req)).log (.amountsLine req.order_id
          am.base_amount am.discount_amount am.final_amount)) :=
        frameOK_trans (frameOK_log req s _) (frameOK_log req _ _)
      have hf2 := runForward_frame _ _ s2 _ _ hb hrun
      rcases hdisj with ⟨_, _, hfin⟩ | ⟨e, _, _, hfin⟩
      · rw [hfin]
        exact frameOK_trans (frameOK_trans hf1 hf2) (frameOK_log req s2 _)
      · rw [hfin]
        have hcomps : ∀ st ∈ comps.reverse, StepBound req st := by
          intro st hst
          rw [List.mem_reverse] at hst
          obtain ⟨g1, _, _⟩ := runForward_prefix _ _ _ _ _ hrun
          have hmem : st ∈ buildSteps req am.final_amount := by
            rw [g1] at hst
            exact List.take_subset _ _ hst
          exact hb st hmem
        have hA : FrameOK req s (s2.log (.sagaFailed req.order_id e)) :=
          frameOK_trans (frameOK_trans hf1 hf2)
            (frameOK_log req s2 (.sagaFailed req.order_id e))
        have hB : FrameOK req (s2.log (.sagaFailed req.order_id e))
            (compensateAll req.order_id (s2.log (.sagaFailed req.order_id e))
              comps.reverse) :=
          compensateAll_frame _ _ hcomps
        exact frameOK_trans (frameOK_trans hA hB)
          (frameOK_log req _ (.sagaEndFailed req.order_id))
  exact hframe


/-! ### Concrete instances and witnesses -/

/-- The seed ledger of `run_order.py`. -/
def demoStore : Store where
  users := fun k => if k = 1 then some ⟨1, 1000⟩ else if k = 2 then some ⟨2, 50⟩ else none
  items := fun k =>
    if k = "ITEM001" then some ⟨"ITEM001", 100, 10⟩
    else if k = "ITEM002" then some ⟨"ITEM002", 100, 5⟩ else none
  promos := fun k =>
    if k = "DISCOUNT10" then some ⟨"DISCOUNT10", 5, 10⟩
    else if k = "EXPIRED" then some ⟨"EXPIRED", 0, 15⟩ else none
  logs := []

def wreq1 : OrderRequest :=
  { order_id := 2, user_id := 1, sku := "ITEM001", qty := 1, promo_code := some "DISCOUNT10" }

def wreq2 : OrderRequest :=
  { order_id := 3, user_id := 1, sku := "ITEM001", qty := 1, promo_code := some "EXPIRED" }

def wreq3 : OrderRequest :=
  { order_id := 4, user_id := 1, sku := "ITEM001", qty := 20, promo_code := some "DISCOUNT10" }

def wreq4 : OrderRequest :=
  { order_id := 1, user_id := 1, sku := "ITEM001", qty := 2, promo_code := none }

def wreq5 : OrderRequest :=
  { order_id := 9, user_id := 1, sku := "ITEM001", qty := 0, promo_code := none }

theorem C1_success_ledger_witness :
    (execute demoStore wreq1 none).2 = .ok true ∧
    calculate_amounts demoStore wreq1 = .ok ⟨100, 10, 90⟩ ∧
    (execute demoStore wreq1 none).1.users wreq1.user_id =
      some { id := 1, balance := 1000 - 90 } := by
  have hok : (execute demoStore wreq1 none).2 = .ok true := by
    norm_num +decide [execute, calculate_amounts, calculate_discount, buildSteps,
      runForward, runStep, stepExecute, reserve_promo_use, reserve_inventory,
      charge_user_balance, Step.name, Store.log, upd, startLine, demoStore, wreq1,
      quantize2, roundHalfEven, ratFloor]
  have ham : calculate_amounts demoStore wreq1 = .ok ⟨100, 10, 90⟩ := by
    norm_num +decide [calculate_amounts, calculate_discount, demoStore, wreq1,
      quantize2, roundHalfEven, ratFloor]
  exact ⟨hok, ham, (@C1_success_ledger demoStore wreq1 none ⟨100, 10, 90⟩ ⟨1, 1000⟩
    ⟨"ITEM001", 100, 10⟩ hok ham (by decide) (by decide)).1⟩

theorem C2_failure_rollback_witness :
    (execute demoStore wreq2 none).2 = .ok false ∧
    (execute demoStore wreq2 none).1.users = demoStore.users ∧
    (execute demoStore wreq2 none).1.items = demoStore.items ∧
    (execute demoStore wreq2 none).1.promos = demoStore.promos := by
  have hfail : (execute demoStore wreq2 none).2 = .ok false := by
    norm_num +decide [execute, calculate_amounts, calculate_discount, buildSteps,
      runForward, runStep, stepExecute, reserve_promo_use, Step.name, Store.log,
      upd, startLine, demoStore, wreq2, quantize2, roundHalfEven, ratFloor]
  exact ⟨hfail, C2_failure_rollback hfail⟩

def wam3 : OrderAmounts := ⟨2000, 10, 1990⟩

theorem C3_compensation_order_witness :
    (execute demoStore wreq3 none).2 = .ok false ∧
    calculate_amounts demoStore wreq3 = .ok wam3 ∧
    ∃ (s2 : Store) (comps : List Step) (e : SagaErr),
      runForward wreq3.order_id none
        ((demoStore.log (startLine wreq3)).log (.amountsLine wreq3.order_id
          wam3.base_amount wam3.discount_amount wam3.final_amount))
        (buildSteps wreq3 wam3.final_amount) = (s2, comps, some e) ∧
      comps = (buildSteps wreq3 wam3.final_amount).take comps.length ∧
      comps.length < (buildSteps wreq3 wam3.final_amount).length ∧
      (∃ t1, s2.logs = ((demoStore.log (startLine wreq3)).log
          (.amountsLine wreq3.order_id wam3.base_amount wam3.discount_amount
            wam3.final_amount)).logs ++ t1 ∧
        compStarts t1 = []) ∧
      (∃ t2, (execute demoStore wreq3 none).1.logs =
          s2.logs ++ [LogEntry.sagaFailed wreq3.order_id e] ++ t2 ++
            [LogEntry.sagaEndFailed wreq3.order_id] ∧
        compStarts t2 = comps.reverse.map Step.name) := by
  have hfail : (execute demoStore wreq3 none).2 = .ok false := by
    norm_num +decide [execute, calculate_amounts, calculate_discount, buildSteps,
      runForward, runStep, stepExecute, reserve_promo_use, reserve_inventory,
      Step.name, Store.log, upd, startLine, demoStore, wreq3, quantize2,
      roundHalfEven, ratFloor]
  have ham : calculate_amounts demoStore wreq3 = .ok wam3 := by
    norm_num +decide [calculate_amounts, calculate_discount, demoStore, wreq3, wam3,
      quantize2, roundHalfEven, ratFloor]
  exact ⟨hfail, ham, C3_compensation_order hfail ham⟩

theorem C4_no_raise_witness :
    ¬ wreq4.qty ≤ 0 ∧ (demoStore.users wreq4.user_id).isSome ∧
    (demoStore.items wreq4.sku).isSome ∧
    ∃ (b : Bool) (am : OrderAmounts) (s2 : Store) (comps : List Step)
      (res : Option SagaErr),
      (execute demoStore wreq4 none).2 = .ok b ∧
      calculate_amounts demoStore wreq4 = .ok am ∧
      runForward wreq4.order_id none
        ((demoStore.log (startLine wreq4)).log (.amountsLine wreq4.order_id
          am.base_amount am.discount_amount am.final_amount))
        (buildSteps wreq4 am.final_amount) = (s2, comps, res) ∧
      (b = true ↔ res = none) :=
  ⟨by decide, by decide, by decide, C4_no_raise (by decide) (by decide) (by decide)⟩

theorem C5_validation_raises_witness :
    (wreq5.qty ≤ 0 ∨ demoStore.users wreq5.user_id = none ∨
      demoStore.items wreq5.sku = none) ∧
    ∃ e, execute demoStore wreq5 none =
      ({ demoStore with logs := demoStore.logs ++ [startLine wreq5] }, .error e) :=
  ⟨Or.inl (by decide), C5_validation_raises (Or.inl (by decide))⟩

theorem C6_discount_witness :
    demoStore.promos "DISCOUNT10" = some ⟨"DISCOUNT10", 5, 10⟩ ∧
    calculate_discount demoStore (some "DISCOUNT10") 100 =
      min (10 : ℚ) 100 :=
  ⟨by decide,
   (C6_discount demoStore (some "DISCOUNT10") 100).2.2.2.2.1 "DISCOUNT10"
     ⟨"DISCOUNT10", 5, 10⟩ rfl (by decide) (by decide) (by decide)⟩

theorem C7_amounts_witness :
    demoStore.items wreq4.sku = some ⟨"ITEM001", 100, 10⟩ ∧
    Quantized2 (100 : ℚ) ∧
    ∃ am, calculate_amounts demoStore wreq4 = .ok am ∧
      am.base_amount = (100 : ℚ) * (wreq4.qty : ℚ) ∧
      am.discount_amount =
        quantize2 (calculate_discount demoStore wreq4.promo_code am.base_amount) ∧
      am.final_amount = am.base_amount - am.discount_amount ∧
      Quantized2 am.base_amount ∧ Quantized2 am.discount_amount ∧
      Quantized2 am.final_amount :=
  ⟨by decide, by norm_num [Quantized2],
   @C7_amounts demoStore wreq4 ⟨"ITEM001", 100, 10⟩ (by decide)
     (by norm_num [Quantized2])⟩

theorem C8_step_sequence_witness :
    buildSteps wreq1 90 = [Step.reservePromoUse "DISCOUNT10",
      Step.reserveInventory "ITEM001" 1, Step.chargeUserBalance 1 90,
      Step.finalizeOrder] :=
  (C8_step_sequence wreq1 90).1 "DISCOUNT10" rfl (by decide)

theorem C9_nonneg_witness :
    NonNegS demoStore ∧ (0 : ℤ) ≤ 3 ∧
    NonNegS (release_inventory demoStore 1 "ITEM001" 3) ∧
    NonNegS (execute demoStore wreq4 none).1 := by
  have hs : NonNegS demoStore := by
    constructor
    · intro k it h
      simp only [demoStore] at h
      split at h
      · have h2 := Option.some.inj h
        subst h2
        decide
      · split at h
        · have h2 := Option.some.inj h
          subst h2
          decide
        · exact Option.noConfusion h
    · intro k p h
      simp only [demoStore] at h
      split at h
      · have h2 := Option.some.inj h
        subst h2
        decide
      · split at h
        · have h2 := Option.some.inj h
          subst h2
          decide
        · exact Option.noConfusion h
  exact ⟨hs, by decide, (C9_nonneg demoStore hs).2.2.2.1 1 "ITEM001" 3 (by decide),
    (C9_nonneg demoStore hs).2.2.2.2.2.2 wreq4 none⟩

theorem C10_frame_witness :
    (2 : ℤ) ≠ wreq1.user_id ∧
    (execute demoStore wreq1 none).1.users 2 = demoStore.users 2 ∧
    ∃ t, (execute demoStore wreq1 none).1.logs = demoStore.logs ++ t :=
  ⟨by decide, (C10_frame demoStore wreq1 none).1 2 (by decide),
   (C10_frame demoStore wreq1 none).2.2.2.2.2.2⟩

end SagaDemo
